import Mathlib

/-!
# CHIP-8 interpreter core (`chip8.c`, `chip8.h`)

A shallow embedding of the virtual machine of `chip8.h` and of the functions of
`chip8.c`, followed by theorems about them.

Conventions of the embedding.

* C arrays are total functions `Nat → Nat`; only the indices below the declared
  array size are meaningful.  Every array access of the source whose index is not
  bounded by the source itself is guarded here, and an access outside the array
  makes the operation end in `out_of_bounds` (C leaves it undefined).
* `uint8_t` and `uint16_t` values are natural numbers; a store into an
  `uint8_t` lvalue is `u8`, a store into an `uint16_t` lvalue is `u16`, wherever the
  stored expression can leave the range.
* `printf` calls have no effect on the machine and are left out; `rand()` is an
  argument of the step.
-/

namespace Chip8

set_option linter.unusedVariables false

/-! ## Constants -/

/-- Number of cells of `ram` (`chip8.h`). -/
def RAM_SIZE : Nat := 4096

/-- Number of slots of the call stack (`chip8.h`). -/
def STACK_SLOTS : Nat := 16

/-- Width of the framebuffer (`chip8.h`). -/
def FB_COLS : Nat := 64

/-- Height of the framebuffer (`chip8.h`). -/
def FB_ROWS : Nat := 32

/-- Address at which a program is placed (`chip8.c`). -/
def PROG_START : Nat := 0x200

/-- Mask of a 12-bit address (`chip8.c`). -/
def ADDRESS_MASK : Nat := 0x0fff

/-- Address at which the font is placed (`chip8.c`). -/
def FONT_ADDRESS : Nat := 0x000

/-- Bytes per font sprite (`chip8.c`). -/
def FONT_CHAR_SIZE : Nat := 5

/-- The font table of `chip8.c`, one row of five bytes per hexadecimal digit. -/
def chip8_font_sprites : List Nat := [
  0xf0, 0x90, 0x90, 0x90, 0xf0,
  0x20, 0x60, 0x20, 0x20, 0x70,
  0xf0, 0x10, 0xf0, 0x80, 0xf0,
  0xf0, 0x10, 0xf0, 0x10, 0xf0,
  0x90, 0x90, 0xf0, 0x10, 0x10,
  0xf0, 0x80, 0xf0, 0x10, 0xf0,
  0xf0, 0x80, 0xf0, 0x90, 0xf0,
  0xf0, 0x10, 0x20, 0x40, 0x40,
  0xf0, 0x90, 0xf0, 0x90, 0xf0,
  0xf0, 0x90, 0xf0, 0x90, 0xf0,
  0xf0, 0x90, 0xf0, 0x90, 0x90,
  0xe0, 0x90, 0xe0, 0x90, 0xe0,
  0xf0, 0x80, 0x80, 0x80, 0xf0,
  0xe0, 0x90, 0x90, 0x90, 0xe0,
  0xf0, 0x80, 0xf0, 0x80, 0xf0,
  0xf0, 0x80, 0xf0, 0x80, 0x80]

/-- Row `d` of the font table: the sprite of the hexadecimal digit `d`. -/
def font_sprite (d : Nat) : List Nat :=
  (chip8_font_sprites.drop (FONT_CHAR_SIZE * d)).take FONT_CHAR_SIZE

/-! ## Machine integers and arrays -/

/-- Conversion to `uint8_t`. -/
def u8 (n : Nat) : Nat := n % 256

/-- Conversion to `uint16_t`. -/
def u16 (n : Nat) : Nat := n % 65536

/-- The array `f` after the assignment `f[k] = v`. -/
def upd (f : Nat → Nat) (k v : Nat) : Nat → Nat :=
  fun a => if a = k then v else f a

/-! ## The machine state -/

/-- The fields of `struct chip8_vm`, in the order of `chip8.h`. -/
structure chip8_vm where
  /-- Field `uint16_t ram[RAM_SIZE]`. -/
  ram : Nat → Nat
  /-- Field `uint8_t V[16]`. -/
  V : Nat → Nat
  /-- Field `uint16_t stack[STACK_SLOTS]`. -/
  stack : Nat → Nat
  /-- Field `uint16_t pc`. -/
  pc : Nat
  /-- Field `uint16_t I`. -/
  I : Nat
  /-- Field `uint16_t delay_timer`. -/
  delay_timer : Nat
  /-- Field `uint16_t sound_timer`. -/
  sound_timer : Nat
  /-- Field `uint16_t keys[16]`. -/
  keys : Nat → Nat
  /-- Field `uint16_t sp`. -/
  sp : Nat
  /-- Field `uint8_t fb[FB_ROWS][FB_COLS]`. -/
  fb : Nat → Nat → Nat

/-- A machine whose every cell is zero. -/
def zero_vm : chip8_vm :=
  { ram := fun _ => 0, V := fun _ => 0, stack := fun _ => 0, pc := 0, I := 0,
    delay_timer := 0, sound_timer := 0, keys := fun _ => 0, sp := 0,
    fb := fun _ _ => 0 }

/-! ## `chip8_load` -/

/-- The loop `for (i = 0; i < len; i++) ram[base + i] = src[i];`, started with
`a = base` and the bytes `src` still to be copied. -/
def copy_loop : List Nat → Nat → (Nat → Nat) → (Nat → Nat)
  | [], _, ram => ram
  | b :: bs, a, ram => copy_loop bs (a + 1) (upd ram a b)

/-- Function `chip8_load`: the returned flag and the machine afterwards.  The
program is the byte sequence `program`, and `proglen` is its length. -/
def chip8_load (vm : chip8_vm) (program : List Nat) : Bool × chip8_vm :=
  if program.length > RAM_SIZE - PROG_START then
    (false, vm)
  else
    let ram1 := copy_loop chip8_font_sprites FONT_ADDRESS vm.ram
    let ram2 := copy_loop program PROG_START ram1
    (true, { vm with ram := ram2, pc := PROG_START, I := 0, sp := 0,
                     delay_timer := 0, sound_timer := 0 })

/-! ## Debug accessors -/

/-- Function `chip8_get_pc`. -/
def chip8_get_pc (vm : chip8_vm) : Nat := vm.pc

/-- Function `chip8_set_pc`. -/
def chip8_set_pc (vm : chip8_vm) (new_pc : Nat) : chip8_vm := { vm with pc := new_pc }

/-- Function `chip8_get_i`. -/
def chip8_get_i (vm : chip8_vm) : Nat := vm.I

/-- Function `chip8_set_i`. -/
def chip8_set_i (vm : chip8_vm) (new_i : Nat) : chip8_vm := { vm with I := new_i }

/-- Function `chip8_get_vr`; the index is a C `int`. -/
def chip8_get_vr (vm : chip8_vm) (index : Int) : Nat :=
  if index ≥ 0 ∧ index < 16 then vm.V index.toNat else 0

/-- Function `chip8_set_vr`; the index is a C `int`. -/
def chip8_set_vr (vm : chip8_vm) (index : Int) (new_val : Nat) : chip8_vm :=
  if index ≥ 0 ∧ index < 16 then { vm with V := upd vm.V index.toNat new_val } else vm

/-- Function `chip8_get_ram`; the cell is an `uint16_t`, the result an `uint8_t`. -/
def chip8_get_ram (vm : chip8_vm) (address : Nat) : Nat :=
  if address < RAM_SIZE then u8 (vm.ram address) else 0

/-- Function `chip8_set_ram`. -/
def chip8_set_ram (vm : chip8_vm) (address : Nat) (new_val : Nat) : chip8_vm :=
  if address < RAM_SIZE then { vm with ram := upd vm.ram address new_val } else vm

/-! ## `chip8_cycle` -/

/-- Conversion of a C `int` to `uint8_t`. -/
def wrap8 (z : Int) : Nat := (z % 256).toNat

/-- How the `switch` statement of `chip8_cycle` is left. -/
inductive Exec where
  /-- Through `break`, with the machine as it then is. -/
  | brk (vm : chip8_vm)
  /-- Through `return false`, with the machine as it then is. -/
  | ret_false (vm : chip8_vm)
  /-- An array was accessed outside its bounds. -/
  | out_of_bounds

/-- What a call of `chip8_cycle` does. -/
inductive Outcome where
  /-- It returned `true`; `sound` is the value written to `*sound`. -/
  | ok (vm : chip8_vm) (sound : Bool)
  /-- It returned `false`; `*sound` was not written. -/
  | fail (vm : chip8_vm)
  /-- It accessed an array outside its bounds. -/
  | out_of_bounds

/-- The instruction word `(vm->ram[vm->pc] << 8) | vm->ram[vm->pc + 1]`, as an
`uint16_t`; `none` when one of the two cells lies outside `ram`. -/
def fetch (vm : chip8_vm) : Option Nat :=
  if vm.pc + 1 < RAM_SIZE then
    some (u16 ((vm.ram vm.pc <<< 8) ||| vm.ram (vm.pc + 1)))
  else
    none

/-- Body of `case 0x0007` of the `0x8000` family. -/
def alu_case7 (vm : chip8_vm) (x y : Nat) : Exec :=
  let V1 := upd vm.V 0xF (if vm.V y > vm.V x then 1 else 0)
  let V2 := upd V1 x (wrap8 ((V1 y : Int) - (V1 x : Int)))
  .brk { vm with V := V2 }

/-- The inner `switch (opcode & 0x000F)` of the `0x8000` family. -/
def alu (vm : chip8_vm) (opcode x y : Nat) : Exec :=
  match opcode &&& 0x000F with
  | 0x0000 =>
    let V1 := upd vm.V x (vm.V y)
    .brk { vm with V := upd V1 0xF 0 }
  | 0x0001 =>
    let V1 := upd vm.V x (u8 (vm.V x ||| vm.V y))
    .brk { vm with V := upd V1 0xF 0 }
  | 0x0002 =>
    let V1 := upd vm.V x (u8 (vm.V x &&& vm.V y))
    .brk { vm with V := upd V1 0xF 0 }
  | 0x0003 =>
    let V1 := upd vm.V x (u8 (vm.V x ^^^ vm.V y))
    .brk { vm with V := upd V1 0xF 0 }
  | 0x0004 =>
    let V1 := upd vm.V 0xF (if vm.V x + vm.V y > 0xFF then 1 else 0)
    let V2 := upd V1 x ((V1 x + V1 y) &&& 0xFF)
    .brk { vm with V := V2 }
  | 0x0005 =>
    let V1 := upd vm.V 0xF (if vm.V x > vm.V y then 1 else 0)
    let V2 := upd V1 x (wrap8 ((V1 x : Int) - (V1 y : Int)))
    .brk { vm with V := V2 }
  | 0x0006 =>
    let V1 := upd vm.V 0xF 0
    let V2 := upd V1 0xF (V1 x &&& 0x1)
    -- the statement `vm->V[x] >> 1;` stores nothing, and no `break` follows it:
    -- control continues in `case 0x0007`
    alu_case7 { vm with V := V2 } x y
  | 0x0007 => alu_case7 vm x y
  | 0x000E =>
    let V1 := upd vm.V 0xF ((vm.V x &&& 0x80) >>> 7)
    let V2 := upd V1 x (u8 (V1 x <<< 1))
    .brk { vm with V := V2 }
  | _ => .ret_false vm

/-- The loop of `case 0x0055`: `count` iterations are left, the next one with
index `i`. -/
def store_loop (V : Nat → Nat) (I : Nat) : Nat → Nat → (Nat → Nat) → Option (Nat → Nat)
  | 0, _, ram => some ram
  | count + 1, i, ram =>
    if I + i < RAM_SIZE then store_loop V I count (i + 1) (upd ram (I + i) (V i)) else none

/-- The loop of `case 0x0065`: `count` iterations are left, the next one with
index `i`. -/
def load_loop (ram : Nat → Nat) (I : Nat) : Nat → Nat → (Nat → Nat) → Option (Nat → Nat)
  | 0, _, V => some V
  | count + 1, i, V =>
    if I + i < RAM_SIZE then load_loop ram I count (i + 1) (upd V i (u8 (ram (I + i)))) else none

/-- The `switch (opcode & 0xF000)` of `chip8_cycle`, entered after `vm->pc += 2`;
`rnd` is the value that `rand()` returns. -/
def exec (vm : chip8_vm) (opcode x y rnd : Nat) : Exec :=
  match opcode &&& 0xF000 with
  | 0xA000 => .brk { vm with I := opcode &&& 0x0FFF }
  | 0xC000 => .brk { vm with V := upd vm.V x ((rnd % 256) &&& (opcode &&& 0x00FF)) }
  | 0xD000 => .brk vm
  | 0xE000 =>
    match opcode &&& 0x00FF with
    | 0x009E =>
      if vm.V x < 16 then
        if vm.keys (vm.V x) ≠ 0 then .brk { vm with pc := u16 (vm.pc + 2) } else .brk vm
      else .out_of_bounds
    | 0x00A1 =>
      if vm.V x < 16 then
        if vm.keys (vm.V x) = 0 then .brk { vm with pc := u16 (vm.pc + 2) } else .brk vm
      else .out_of_bounds
    | _ => .brk vm
  | 0xF000 =>
    match opcode &&& 0x00FF with
    | 0x0055 =>
      match store_loop vm.V vm.I (x + 1) 0 vm.ram with
      | some ram1 => .brk { vm with ram := ram1, I := u16 (vm.I + (x + 1)) }
      | none => .out_of_bounds
    | 0x0065 =>
      match load_loop vm.ram vm.I (x + 1) 0 vm.V with
      | some V1 => .brk { vm with V := V1, I := u16 (vm.I + (x + 1)) }
      | none => .out_of_bounds
    | _ => .brk vm
  | 0x0000 =>
    if opcode = 0x00EE then
      if vm.sp > 0 then
        if vm.sp - 1 < STACK_SLOTS then
          .brk { vm with sp := vm.sp - 1, pc := vm.stack (vm.sp - 1) }
        else .out_of_bounds
      else .ret_false vm
    else .ret_false vm
  | 0x1000 => .brk { vm with pc := opcode &&& 0x0FFF }
  | 0x2000 =>
    if vm.sp < STACK_SLOTS then
      .brk { vm with stack := upd vm.stack vm.sp vm.pc, sp := vm.sp + 1,
                     pc := opcode &&& 0x0FFF }
    else .ret_false vm
  | 0x3000 =>
    let nn := opcode &&& 0x00FF
    if vm.V x = nn then .brk { vm with pc := u16 (vm.pc + 2) } else .brk vm
  | 0x4000 =>
    let nn := opcode &&& 0x00FF
    if vm.V x ≠ nn then .brk { vm with pc := u16 (vm.pc + 2) } else .brk vm
  | 0x5000 =>
    if vm.V x = vm.V y then .brk { vm with pc := u16 (vm.pc + 2) } else .brk vm
  | 0x6000 =>
    let nn := opcode &&& 0x00FF
    .brk { vm with V := upd vm.V x nn }
  | 0x7000 =>
    let nn := opcode &&& 0x00FF
    .brk { vm with V := upd vm.V x (u8 (vm.V x + nn)) }
  | 0x8000 => alu vm opcode x y
  | 0x9000 =>
    if vm.V x ≠ vm.V y then .brk { vm with pc := u16 (vm.pc + 2) } else .brk vm
  | _ => .ret_false vm

/-- The statements after the `switch`: both timers count down by one when
positive, and `*sound` tells whether the sound timer was positive. -/
def tick_timers (vm : chip8_vm) : Outcome :=
  let vm1 := if vm.delay_timer > 0 then { vm with delay_timer := vm.delay_timer - 1 } else vm
  if vm1.sound_timer > 0 then
    .ok { vm1 with sound_timer := vm1.sound_timer - 1 } true
  else
    .ok vm1 false

/-- Function `chip8_cycle`.  The arguments `keys` and `vtick` are those of the
source; `rnd` is the value of `rand()`.  The local `sum` of the source is never
read and is left out. -/
def chip8_cycle (vm : chip8_vm) (keys : Nat) (vtick : Nat) (rnd : Nat) : Outcome :=
  match fetch vm with
  | none => .out_of_bounds
  | some opcode =>
    let x := (opcode &&& 0x0F00) >>> 8
    let y := (opcode &&& 0x00F0) >>> 4
    let vm1 := { vm with pc := u16 (vm.pc + 2) }
    match exec vm1 opcode x y rnd with
    | .brk vm2 => tick_timers vm2
    | .ret_false vm2 => .fail vm2
    | .out_of_bounds => .out_of_bounds

/-! ## Observations of an outcome -/

/-- Register `i` after a call that returned `true`. -/
def Outcome.reg : Outcome → Nat → Option Nat
  | .ok vm _, i => some (vm.V i)
  | _, _ => none

/-! ## Instruction words -/

/-- The instruction word with family nibble `f`, register fields `x` and `y` and low
nibble `n` (written `fxyn` in hexadecimal). -/
def instr (f x y n : Nat) : Nat := 0x1000 * f + 0x100 * x + 0x10 * y + n

/-- The instruction word with family nibble `f`, register field `x` and immediate
byte `nn`. -/
def instr_imm (f x nn : Nat) : Nat := 0x1000 * f + 0x100 * x + nn

/-! ## Concrete machines

Each is the zero machine after `chip8_load` of one instruction and some calls of
`chip8_set_vr`, as the fixtures of `test.c` prepare their machines. -/

/-- Instruction `8011` (V0 |= V1) with V0 = 1, V1 = 2 and VF = 1. -/
def or_input : chip8_vm :=
  chip8_set_vr (chip8_set_vr (chip8_set_vr (chip8_load zero_vm [0x80, 0x11]).2 0 1) 1 2) 15 1

/-- Instruction `70FF` (V0 += 0xFF) with V0 = 2 and VF = 42. -/
def add_imm_input : chip8_vm :=
  chip8_set_vr (chip8_set_vr (chip8_load zero_vm [0x70, 0xFF]).2 0 2) 15 42

/-- Instruction `8F04` (VF += V0) with V0 = 5 and VF = 0. -/
def add_into_flag_input : chip8_vm :=
  chip8_set_vr (chip8_load zero_vm [0x8F, 0x04]).2 0 5

/-- Instruction `80F4` (V0 += VF) with V0 = 1 and VF = 5. -/
def add_from_flag_input : chip8_vm :=
  chip8_set_vr (chip8_set_vr (chip8_load zero_vm [0x80, 0xF4]).2 0 1) 15 5

/-- Instruction `8015` (V0 -= V1) with V0 = 1 and V1 = 1. -/
def sub_equal_input : chip8_vm :=
  chip8_set_vr (chip8_set_vr (chip8_load zero_vm [0x80, 0x15]).2 0 1) 1 1

/-- Instruction `8017` (V0 = V1 - V0) with V0 = 1 and V1 = 1. -/
def rsub_equal_input : chip8_vm :=
  chip8_set_vr (chip8_set_vr (chip8_load zero_vm [0x80, 0x17]).2 0 1) 1 1

/-- Instruction `8E06` (VE = V0 >> 1) with V0 = 1 and VE = 0. -/
def shr_input : chip8_vm :=
  chip8_set_vr (chip8_load zero_vm [0x8E, 0x06]).2 0 1

/-- Instruction `8EAE` (VE = VA << 1) with VA = 0x7f and VE = 0. -/
def shl_input : chip8_vm :=
  chip8_set_vr (chip8_load zero_vm [0x8E, 0xAE]).2 10 0x7f

/-! ## More observations, instruction words and concrete machines -/

/-- The machine after a call that returned `true`. -/
def Outcome.state : Outcome → Option chip8_vm
  | .ok vm _ => some vm
  | _ => none

/-- The value written to `*sound` by a call that returned `true`. -/
def Outcome.sound : Outcome → Option Bool
  | .ok _ s => some s
  | _ => none

/-- The value that a call returned; `none` when it left the bounds of an array. -/
def Outcome.returned : Outcome → Option Bool
  | .ok _ _ => some true
  | .fail _ => some false
  | .out_of_bounds => none

/-- The machine after a further call with the given arguments, when that call
returns `true`; this is what the fixture's `CYCLE_PC`, `CYCLE_VX` and `CYCLE_I`
require of each step. -/
def next (keys vtick rnd : Nat) (vm : chip8_vm) : Option chip8_vm :=
  (chip8_cycle vm keys vtick rnd).state

/-- The instruction word with family nibble `f` and address `nnn`. -/
def instr_addr (f nnn : Nat) : Nat := 0x1000 * f + nnn

/-- The program `jump 0x204; filler; V0 := 0x28; V1 := 0x29`, the first four
instructions of `test_prog1`. -/
def jump_program : List Nat := [0x12, 0x04, 0x00, 0x00, 0x60, 0x28, 0x61, 0x29]

/-- Instruction `1200` (jump to self) with both timers holding 3. -/
def timers_input : chip8_vm :=
  { (chip8_load zero_vm [0x12, 0x00]).2 with delay_timer := 3, sound_timer := 3 }

/-- Instruction `1200` (jump to self) with the sound timer holding 1. -/
def sound_one_input : chip8_vm :=
  { (chip8_load zero_vm [0x12, 0x00]).2 with sound_timer := 1 }

/-- Instructions `F115; F207; F118` with V1 = 3 and V2 = 0. -/
def set_timer_input : chip8_vm :=
  chip8_set_vr (chip8_load zero_vm [0xF1, 0x15, 0xF2, 0x07, 0xF1, 0x18]).2 1 3

/-- Instructions `F30A; 8000` (wait for a key into V3, then a no-op) with
V3 = 0; every entry of the machine's `keys` array is 0. -/
def wait_key_input : chip8_vm :=
  (chip8_load zero_vm [0xF3, 0x0A, 0x80, 0x00]).2

/-- Instruction `E09E` (skip if key V0 is down) with V0 = 1; every entry of the
machine's `keys` array is 0. -/
def key_down_input : chip8_vm :=
  chip8_set_vr (chip8_load zero_vm [0xE0, 0x9E]).2 0 1

/-- Instruction `E0A1` (skip if key V0 is up) with V0 = 1; every entry of the
machine's `keys` array is 0. -/
def key_up_input : chip8_vm :=
  chip8_set_vr (chip8_load zero_vm [0xE0, 0xA1]).2 0 1

/-- Instruction `302A` (skip if V0 == 0x2A) with V0 = 0x2A. -/
def skip_input : chip8_vm :=
  chip8_set_vr (chip8_load zero_vm [0x30, 0x2A]).2 0 0x2A

/-- Instructions `2204; 0000; 00EE`: a call of the subroutine at 0x204, which
returns at once. -/
def call_input : chip8_vm :=
  (chip8_load zero_vm [0x22, 0x04, 0x00, 0x00, 0x00, 0xEE]).2

/-- Instruction `00EE` (return) with an empty stack. -/
def return_input : chip8_vm :=
  (chip8_load zero_vm [0x00, 0xEE]).2

/-- Instruction `F355` with I = 0x300 and V0..V3 = 0x63, 0x2B, 0x2C, 0x2D, as
at the end of `test1`. -/
def store_input : chip8_vm :=
  chip8_set_i (chip8_set_vr (chip8_set_vr (chip8_set_vr (chip8_set_vr
    (chip8_load zero_vm [0xF3, 0x55]).2 0 0x63) 1 0x2B) 2 0x2C) 3 0x2D) 0x300

/-! ## Observations and concrete machines for memory, display and invariants -/

/-- The machine after a call that returned, with `true` or with `false`. -/
def Outcome.machine : Outcome → Option chip8_vm
  | .ok vm _ => some vm
  | .fail vm => some vm
  | .out_of_bounds => none

/-- Instruction `F165` followed by the data bytes 0x63, 0x2B, with I = 0x202 and
V2 = 7. -/
def load_regs_input : chip8_vm :=
  chip8_set_i (chip8_set_vr (chip8_load zero_vm [0xF1, 0x65, 0x63, 0x2B]).2 2 7) 0x202

/-- Instruction `E000`, whose low byte is neither 0x9E nor 0xA1. -/
def illegal_key_input : chip8_vm :=
  (chip8_load zero_vm [0xE0, 0x00]).2

/-- Instruction `F0FF`, whose low byte names no instruction. -/
def illegal_misc_input : chip8_vm :=
  (chip8_load zero_vm [0xF0, 0xFF]).2

/-- A machine that was never loaded, with V0 = 5. -/
def used_regs_input : chip8_vm :=
  chip8_set_vr zero_vm 0 5

/-- Instruction `D001` (draw one sprite row at column V0, row V0) with V0 = 0,
VF = 1, I = 0, where `chip8_load` has put the font byte 0xf0, and an empty
framebuffer. -/
def draw_input : chip8_vm :=
  chip8_set_vr (chip8_load zero_vm [0xD0, 0x01]).2 15 1

/-- Instruction `00E0` (clear the screen) with every framebuffer cell at 1. -/
def clear_input : chip8_vm :=
  { (chip8_load zero_vm [0x00, 0xE0]).2 with fb := fun _ _ => 1 }

/-- Instruction `1201`: a jump to the odd address 0x201. -/
def odd_jump_input : chip8_vm :=
  (chip8_load zero_vm [0x12, 0x01]).2

/-- Instruction `6000` (V0 := 0) in the last two cells of `ram`, with the program
counter at 0xFFE. -/
def last_cell_input : chip8_vm :=
  chip8_set_pc (chip8_set_ram (chip8_set_ram zero_vm 0xFFE 0x60) 0xFFF 0x00) 0xFFE

/-- Instruction `00EE` (return) with one stack entry, which holds 0x1001. -/
def popped_input : chip8_vm :=
  { (chip8_load zero_vm [0x00, 0xEE]).2 with sp := 1, stack := fun _ => 0x1001 }

/-! ## Sequences of calls -/

/-- One call that a host can make on a loaded machine: a step with its arguments
(and the value that `rand()` would return), or one of the debug accessors. -/
inductive Action where
  /-- A call of `chip8_cycle`. -/
  | cycle (keys vtick rnd : Nat)
  /-- A call of `chip8_get_pc`. -/
  | get_pc
  /-- A call of `chip8_set_pc`. -/
  | set_pc (new_pc : Nat)
  /-- A call of `chip8_get_i`. -/
  | get_i
  /-- A call of `chip8_set_i`. -/
  | set_i (new_i : Nat)
  /-- A call of `chip8_get_vr`. -/
  | get_vr (index : Int)
  /-- A call of `chip8_set_vr`. -/
  | set_vr (index : Int) (new_val : Nat)
  /-- A call of `chip8_get_ram`. -/
  | get_ram (address : Nat)
  /-- A call of `chip8_set_ram`. -/
  | set_ram (address : Nat) (new_val : Nat)

/-- The machine after one call; a step counts whether it returned `true` or `false`,
and there is no machine after a step that left the bounds of an array.  The getters
return a value and leave the machine alone. -/
def perform (vm : chip8_vm) : Action → Option chip8_vm
  | .cycle keys vtick rnd => (chip8_cycle vm keys vtick rnd).machine
  | .get_pc => some vm
  | .set_pc new_pc => some (chip8_set_pc vm new_pc)
  | .get_i => some vm
  | .set_i new_i => some (chip8_set_i vm new_i)
  | .get_vr _ => some vm
  | .set_vr index new_val => some (chip8_set_vr vm index new_val)
  | .get_ram _ => some vm
  | .set_ram address new_val => some (chip8_set_ram vm address new_val)

/-- The machine after a sequence of calls, made one after the other. -/
def perform_all (vm : chip8_vm) : List Action → Option chip8_vm
  | [] => some vm
  | a :: rest =>
    match perform vm a with
    | some vm1 => perform_all vm1 rest
    | none => none

/-- The memory of `shr_input` with the instruction `8E07` in place of `8E06`. -/
def rsub_ram : Nat → Nat :=
  (chip8_load zero_vm [0x8E, 0x07]).2.ram

/-! ## Accesses outside the arrays

`chip8_cycle` above stops at the first access outside an array.  Two variants follow
that say more about such accesses.

* `chip8_cycle_reads` lets every read outside an array go through: the value read is
  whatever lies there, the argument `junk`, and may be anything.  A store outside
  `ram` still ends the step in `out_of_bounds`.  The only store of `chip8_cycle` whose
  index the source does not bound is the one of `case 0x0055`.
* `chip8_cycle_layout` resolves that store as well, by the layout of
  `struct chip8_vm` in `chip8.h`: the members follow one another without padding
  (`ram` is 8192 bytes, `V` 16 bytes, every other member before `fb` has two-byte
  elements and `fb` has one-byte elements), and a two-byte cell holds its low byte
  first.  Counted in `uint16_t` cells from `ram[0]`, the members start at the indices
  given by the constants `CELL_V` to `CELL_END`. -/

/-- Cell index of `V[0]`, right after the 4096 cells of `ram`; two registers share a
cell. -/
def CELL_V : Nat := 4096

/-- Cell index of `stack[0]`. -/
def CELL_STACK : Nat := 4104

/-- Cell index of `pc`. -/
def CELL_PC : Nat := 4120

/-- Cell index of `I`. -/
def CELL_I : Nat := 4121

/-- Cell index of `delay_timer`. -/
def CELL_DELAY : Nat := 4122

/-- Cell index of `sound_timer`. -/
def CELL_SOUND : Nat := 4123

/-- Cell index of `keys[0]`. -/
def CELL_KEYS : Nat := 4124

/-- Cell index of `sp`. -/
def CELL_SP : Nat := 4140

/-- Cell index of the first two bytes of `fb`. -/
def CELL_FB : Nat := 4141

/-- Cell index right after the last two bytes of `fb`, where the struct ends. -/
def CELL_END : Nat := 5165

/-- The framebuffer `fb` after the assignment `fb[r][c] = v`. -/
def upd_fb (fb : Nat → Nat → Nat) (r c v : Nat) : Nat → Nat → Nat :=
  fun r1 c1 => if r1 = r ∧ c1 = c then v else fb r1 c1

/-- The machine after the store `vm->ram[a] = v` of the `uint16_t` value `v`, for any
index `a` inside the struct; `none` when the index lies past the end of the struct. -/
def poke (vm : chip8_vm) (a v : Nat) : Option chip8_vm :=
  let lo := v % 256
  let hi := v / 256
  if a < CELL_V then some { vm with ram := upd vm.ram a v }
  else if a < CELL_STACK then
    let r := 2 * (a - CELL_V)
    some { vm with V := upd (upd vm.V r lo) (r + 1) hi }
  else if a < CELL_PC then some { vm with stack := upd vm.stack (a - CELL_STACK) v }
  else if a = CELL_PC then some { vm with pc := v }
  else if a = CELL_I then some { vm with I := v }
  else if a = CELL_DELAY then some { vm with delay_timer := v }
  else if a = CELL_SOUND then some { vm with sound_timer := v }
  else if a < CELL_SP then some { vm with keys := upd vm.keys (a - CELL_KEYS) v }
  else if a = CELL_SP then some { vm with sp := v }
  else if a < CELL_END then
    let b := 2 * (a - CELL_FB)
    let fb1 := upd_fb vm.fb (b / FB_COLS) (b % FB_COLS) lo
    some { vm with fb := upd_fb fb1 ((b + 1) / FB_COLS) ((b + 1) % FB_COLS) hi }
  else none

/-- The loop of `case 0x0055` with every store resolved by `poke`: each iteration
reads `vm->I` and `vm->V[i]` from the machine as the stores before it left it. -/
def store_loop_layout : Nat → Nat → chip8_vm → Option chip8_vm
  | 0, _, vm => some vm
  | count + 1, i, vm =>
    match poke vm (vm.I + i) (vm.V i) with
    | some vm1 => store_loop_layout count (i + 1) vm1
    | none => none

/-- Function `chip8_cycle` with the stores of `case 0x0055` resolved by the layout of
the struct; every other instruction goes through `chip8_cycle`. -/
def chip8_cycle_layout (vm : chip8_vm) (keys : Nat) (vtick : Nat) (rnd : Nat) : Outcome :=
  match fetch vm with
  | none => .out_of_bounds
  | some opcode =>
    if opcode &&& 0xF000 = 0xF000 ∧ opcode &&& 0x00FF = 0x0055 then
      let x := (opcode &&& 0x0F00) >>> 8
      let vm1 := { vm with pc := u16 (vm.pc + 2) }
      match store_loop_layout (x + 1) 0 vm1 with
      | some vm2 => tick_timers { vm2 with I := u16 (vm2.I + (x + 1)) }
      | none => .out_of_bounds
    else chip8_cycle vm keys vtick rnd

/-- A cell of `ram` as the source reads it: inside the array its content, outside
the array whatever `junk` puts there. -/
def read_ram (junk : Nat → Nat) (vm : chip8_vm) (a : Nat) : Nat :=
  if a < RAM_SIZE then vm.ram a else u16 (junk a)

/-- The instruction word `(vm->ram[vm->pc] << 8) | vm->ram[vm->pc + 1]`, as an
`uint16_t`, read from wherever the program counter points. -/
def fetch_reads (junk : Nat → Nat) (vm : chip8_vm) : Nat :=
  u16 ((read_ram junk vm vm.pc <<< 8) ||| read_ram junk vm (vm.pc + 1))

/-- The loop of `case 0x0065`, reading from wherever `I + i` points. -/
def load_loop_reads (junk : Nat → Nat) (vm : chip8_vm) : Nat → Nat → (Nat → Nat) → (Nat → Nat)
  | 0, _, V => V
  | count + 1, i, V =>
    load_loop_reads junk vm count (i + 1) (upd V i (u8 (read_ram junk vm (vm.I + i))))

/-- The `switch (opcode & 0xF000)` of `chip8_cycle` with every read outside an array
let through; a store outside `ram` ends it in `out_of_bounds`. -/
def exec_reads (junk : Nat → Nat) (vm : chip8_vm) (opcode x y rnd : Nat) : Exec :=
  match opcode &&& 0xF000 with
  | 0xA000 => .brk { vm with I := opcode &&& 0x0FFF }
  | 0xC000 => .brk { vm with V := upd vm.V x ((rnd % 256) &&& (opcode &&& 0x00FF)) }
  | 0xD000 => .brk vm
  | 0xE000 =>
    let key := if vm.V x < 16 then vm.keys (vm.V x) else u16 (junk (vm.V x))
    match opcode &&& 0x00FF with
    | 0x009E =>
      if key ≠ 0 then .brk { vm with pc := u16 (vm.pc + 2) } else .brk vm
    | 0x00A1 =>
      if key = 0 then .brk { vm with pc := u16 (vm.pc + 2) } else .brk vm
    | _ => .brk vm
  | 0xF000 =>
    match opcode &&& 0x00FF with
    | 0x0055 =>
      match store_loop vm.V vm.I (x + 1) 0 vm.ram with
      | some ram1 => .brk { vm with ram := ram1, I := u16 (vm.I + (x + 1)) }
      | none => .out_of_bounds
    | 0x0065 =>
      .brk { vm with V := load_loop_reads junk vm (x + 1) 0 vm.V,
                     I := u16 (vm.I + (x + 1)) }
    | _ => .brk vm
  | 0x0000 =>
    if opcode = 0x00EE then
      if vm.sp > 0 then
        .brk { vm with sp := vm.sp - 1,
                       pc := if vm.sp - 1 < STACK_SLOTS then vm.stack (vm.sp - 1)
                             else u16 (junk (vm.sp - 1)) }
      else .ret_false vm
    else .ret_false vm
  | 0x1000 => .brk { vm with pc := opcode &&& 0x0FFF }
  | 0x2000 =>
    if vm.sp < STACK_SLOTS then
      .brk { vm with stack := upd vm.stack vm.sp vm.pc, sp := vm.sp + 1,
                     pc := opcode &&& 0x0FFF }
    else .ret_false vm
  | 0x3000 =>
    let nn := opcode &&& 0x00FF
    if vm.V x = nn then .brk { vm with pc := u16 (vm.pc + 2) } else .brk vm
  | 0x4000 =>
    let nn := opcode &&& 0x00FF
    if vm.V x ≠ nn then .brk { vm with pc := u16 (vm.pc + 2) } else .brk vm
  | 0x5000 =>
    if vm.V x = vm.V y then .brk { vm with pc := u16 (vm.pc + 2) } else .brk vm
  | 0x6000 =>
    let nn := opcode &&& 0x00FF
    .brk { vm with V := upd vm.V x nn }
  | 0x7000 =>
    let nn := opcode &&& 0x00FF
    .brk { vm with V := upd vm.V x (u8 (vm.V x + nn)) }
  | 0x8000 => alu vm opcode x y
  | 0x9000 =>
    if vm.V x ≠ vm.V y then .brk { vm with pc := u16 (vm.pc + 2) } else .brk vm
  | _ => .ret_false vm

/-- Function `chip8_cycle` with every read outside an array let through; `junk` gives
what those reads find. -/
def chip8_cycle_reads (junk : Nat → Nat) (vm : chip8_vm) (keys : Nat) (vtick : Nat)
    (rnd : Nat) : Outcome :=
  let opcode := fetch_reads junk vm
  let x := (opcode &&& 0x0F00) >>> 8
  let y := (opcode &&& 0x00F0) >>> 4
  let vm1 := { vm with pc := u16 (vm.pc + 2) }
  match exec_reads junk vm1 opcode x y rnd with
  | .brk vm2 => tick_timers vm2
  | .ret_false vm2 => .fail vm2
  | .out_of_bounds => .out_of_bounds

/-- The machine after one call, as `perform`, with the reads of a step outside the
arrays let through. -/
def perform_reads (junk : Nat → Nat) (vm : chip8_vm) : Action → Option chip8_vm
  | .cycle keys vtick rnd => (chip8_cycle_reads junk vm keys vtick rnd).machine
  | a => perform vm a

/-- The machine after a sequence of calls, each paired with what its reads outside
the arrays find. -/
def perform_all_reads (vm : chip8_vm) : List ((Nat → Nat) × Action) → Option chip8_vm
  | [] => some vm
  | (junk, a) :: rest =>
    match perform_reads junk vm a with
    | some vm1 => perform_all_reads vm1 rest
    | none => none

/-- Instruction `F055` with V0 = 9 and I = 0x101B, the cell of `sound_timer`; built
by `chip8_load` and two accessor calls. -/
def arm_sound_input : chip8_vm :=
  chip8_set_i (chip8_set_vr (chip8_load zero_vm [0xF0, 0x55]).2 0 9) 0x101B

/-- Instruction `F055` with V0 = 200 and I = 0x102C, the cell of `sp`; built by
`chip8_load` and two accessor calls. -/
def smash_sp_input : chip8_vm :=
  chip8_set_i (chip8_set_vr (chip8_load zero_vm [0xF0, 0x55]).2 0 200) 0x102C

/-- Instruction `F055` with V0 = 0x33 and I = 0x1018, the cell of `pc`; built by
`chip8_load` and two accessor calls. -/
def smash_pc_input : chip8_vm :=
  chip8_set_i (chip8_set_vr (chip8_load zero_vm [0xF0, 0x55]).2 0 0x33) 0x1018

/-- Instruction `3000` (skip if V0 == 0) at 0xFFC with V0 = 0. -/
def skip_end_input : chip8_vm :=
  chip8_set_pc (chip8_set_ram (chip8_set_ram zero_vm 0xFFC 0x30) 0xFFD 0x00) 0xFFC

/-- Instruction `2201`: a call of the odd address 0x201. -/
def odd_call_input : chip8_vm :=
  (chip8_load zero_vm [0x22, 0x01]).2

/-! ## Lemmas: arrays and bit fields -/

theorem upd_same (f : Nat → Nat) (k v : Nat) : upd f k v k = v := by
  simp [upd]

theorem upd_other (f : Nat → Nat) (k v a : Nat) (h : a ≠ k) : upd f k v a = f a := by
  simp [upd, h]

/-- A field of `w` bits at bit position `k`, selected by a mask and shifted down. -/
theorem and_mask_shift (op k w : Nat) :
    (op &&& ((2 ^ w - 1) <<< k)) >>> k = op / 2 ^ k % 2 ^ w := by
  apply Nat.eq_of_testBit_eq
  intro i
  simp only [Nat.testBit_shiftRight, Nat.testBit_and, Nat.testBit_shiftLeft,
    Nat.testBit_mod_two_pow, Nat.testBit_two_pow_sub_one, ← Nat.shiftRight_eq_div_pow]
  by_cases h : i < w <;> simp [h]

/-- A field of `w` bits at bit position `k`, selected by a mask and left in place. -/
theorem and_mask_high (op k w : Nat) :
    op &&& ((2 ^ w - 1) <<< k) = op / 2 ^ k % 2 ^ w * 2 ^ k := by
  apply Nat.eq_of_testBit_eq
  intro i
  rw [← Nat.shiftLeft_eq]
  simp only [Nat.testBit_shiftRight, Nat.testBit_and, Nat.testBit_shiftLeft,
    Nat.testBit_mod_two_pow, Nat.testBit_two_pow_sub_one, ← Nat.shiftRight_eq_div_pow]
  by_cases h : k ≤ i
  · by_cases h2 : i - k < w <;> simp [h, h2]
  · simp [h]

theorem field_x (op : Nat) : (op &&& 0x0F00) >>> 8 = op / 256 % 16 :=
  and_mask_shift op 8 4

theorem field_y (op : Nat) : (op &&& 0x00F0) >>> 4 = op / 16 % 16 :=
  and_mask_shift op 4 4

theorem field_family (op : Nat) : op &&& 0xF000 = op / 4096 % 16 * 4096 :=
  and_mask_high op 12 4

theorem field_nnn (op : Nat) : op &&& 0x0FFF = op % 4096 :=
  Nat.and_pow_two_sub_one_eq_mod op 12

theorem field_nn (op : Nat) : op &&& 0x00FF = op % 256 :=
  Nat.and_pow_two_sub_one_eq_mod op 8

theorem field_n (op : Nat) : op &&& 0x000F = op % 16 :=
  Nat.and_pow_two_sub_one_eq_mod op 4

theorem bit_seven (v : Nat) : (v &&& 0x80) >>> 7 = v / 128 % 2 :=
  and_mask_shift v 7 1

theorem bit_zero (v : Nat) : v &&& 0x1 = v % 2 :=
  Nat.and_pow_two_sub_one_eq_mod v 1

/-! ## Lemmas: `chip8_load` -/

/-- What `copy_loop` leaves in a cell: the copied byte inside the target range,
the old content outside it. -/
theorem copy_loop_apply (src : List Nat) (base : Nat) (ram : Nat → Nat) (a : Nat) :
    copy_loop src base ram a =
      if base ≤ a ∧ a < base + src.length then src.getD (a - base) 0 else ram a := by
  induction src generalizing base ram with
  | nil =>
    have h : ¬ (base ≤ a ∧ a < base + ([] : List Nat).length) := by
      simp only [List.length_nil]; omega
    rw [copy_loop, if_neg h]
  | cons b bs ih =>
    rw [copy_loop, ih]
    by_cases h1 : a = base
    · subst h1
      simp [upd]
    · by_cases h2 : base + 1 ≤ a ∧ a < base + 1 + bs.length
      · have h3 : base ≤ a ∧ a < base + (b :: bs).length := by
          simp only [List.length_cons]; omega
        have h4 : a - base = (a - (base + 1)) + 1 := by omega
        rw [if_pos h2, if_pos h3, h4, List.getD_cons_succ]
      · have h3 : ¬ (base ≤ a ∧ a < base + (b :: bs).length) := by
          simp only [List.length_cons]; omega
        rw [if_neg h2, if_neg h3, upd_other _ _ _ _ h1]

theorem font_length : chip8_font_sprites.length = 80 := rfl

theorem font_bytes : ∀ b ∈ chip8_font_sprites, b < 256 := by decide

/-- A program of at most 3584 bytes is loaded. -/
theorem chip8_load_fits (vm : chip8_vm) (p : List Nat) (h : p.length ≤ 3584) :
    chip8_load vm p =
      (true, { vm with
        ram := copy_loop p PROG_START (copy_loop chip8_font_sprites FONT_ADDRESS vm.ram),
        pc := PROG_START, I := 0, sp := 0, delay_timer := 0, sound_timer := 0 }) := by
  have hn : ¬ p.length > RAM_SIZE - PROG_START := by
    simp only [RAM_SIZE, PROG_START]; omega
  unfold chip8_load
  rw [if_neg hn]

/-- A longer program is refused and the machine is not touched. -/
theorem chip8_load_too_large (vm : chip8_vm) (p : List Nat) (h : 3584 < p.length) :
    chip8_load vm p = (false, vm) := by
  have hp : p.length > RAM_SIZE - PROG_START := by
    simp only [RAM_SIZE, PROG_START]; omega
  unfold chip8_load
  rw [if_pos hp]

/-- The memory left by a successful `chip8_load`. -/
theorem chip8_load_ram_apply (vm : chip8_vm) (p : List Nat) (h : p.length ≤ 3584)
    (a : Nat) :
    (chip8_load vm p).2.ram a =
      if 0x200 ≤ a ∧ a < 0x200 + p.length then p.getD (a - 0x200) 0
      else if a < 80 then chip8_font_sprites.getD a 0
      else vm.ram a := by
  rw [chip8_load_fits vm p h]
  simp only [copy_loop_apply, font_length, PROG_START, FONT_ADDRESS]
  have e : ∀ a : Nat, (0 ≤ a ∧ a < 0 + 80) ↔ a < 80 := by intro a; omega
  simp only [e, Nat.sub_zero]

/-! ## Theorems: `chip8_load` -/

/-- C1: `chip8_load` returns `true` exactly when the program has at most
3584 = 4096 - 0x200 bytes, and `false` exactly when it is longer; so it returns
`true` for the lengths 0 and 3584 too. -/
theorem chip8_load_returns (vm : chip8_vm) (p : List Nat) :
    (chip8_load vm p).1 = decide (p.length ≤ 3584) ∧
    ((chip8_load vm p).1 = false ↔ 3584 < p.length) := by
  by_cases h : p.length ≤ 3584
  · rw [chip8_load_fits vm p h]
    simp only [h, decide_True, true_and]
    constructor
    · intro hf; cases hf
    · intro hl; omega
  · have hl : 3584 < p.length := by omega
    rw [chip8_load_too_large vm p hl]
    simp only [h, decide_False, true_and]
    exact ⟨fun _ => hl, fun _ => trivial⟩

/-- C2: whatever the machine held, loading a program of at most 3584 bytes
succeeds and leaves the program counter at 0x200, the stack pointer at 0 and both
timers at 0. -/
theorem chip8_load_resets (vm : chip8_vm) (p : List Nat) (h : p.length ≤ 3584) :
    (chip8_load vm p).1 = true ∧
    (chip8_load vm p).2.pc = 0x200 ∧
    (chip8_load vm p).2.sp = 0 ∧
    (chip8_load vm p).2.delay_timer = 0 ∧
    (chip8_load vm p).2.sound_timer = 0 := by
  rw [chip8_load_fits vm p h]
  exact ⟨rfl, rfl, rfl, rfl, rfl⟩

/-- Witness of C2: the two-byte program `12 04` loaded into the zero machine. -/
theorem chip8_load_resets_witness :
    [0x12, 0x04].length ≤ 3584 ∧
    ((chip8_load zero_vm [0x12, 0x04]).1 = true ∧
     (chip8_load zero_vm [0x12, 0x04]).2.pc = 0x200 ∧
     (chip8_load zero_vm [0x12, 0x04]).2.sp = 0 ∧
     (chip8_load zero_vm [0x12, 0x04]).2.delay_timer = 0 ∧
     (chip8_load zero_vm [0x12, 0x04]).2.sound_timer = 0) :=
  ⟨by decide, chip8_load_resets zero_vm [0x12, 0x04] (by decide)⟩

/-- C3: after a successful `chip8_load` of the bytes `p`, `chip8_get_ram` reads
`p[i]` at address `0x200 + i` for every `i` below the length of `p`, and reads byte
`k` of the font sprite of the digit `d` at address `5 * d + k`, for the sixteen
digits and the five bytes of each sprite. -/
theorem chip8_load_memory (vm : chip8_vm) (p : List Nat) (h : p.length ≤ 3584)
    (hb : ∀ b ∈ p, b < 256) :
    (chip8_load vm p).1 = true ∧
    (∀ i, (hi : i < p.length) →
      chip8_get_ram (chip8_load vm p).2 (0x200 + i) = p[i]) ∧
    (∀ d k, d < 16 → k < 5 →
      chip8_get_ram (chip8_load vm p).2 (5 * d + k) = (font_sprite d).getD k 0) := by
  refine ⟨(chip8_load_resets vm p h).1, ?_, ?_⟩
  · intro i hi
    have ha : 0x200 + i < RAM_SIZE := by simp only [RAM_SIZE]; omega
    have hr : (0x200 ≤ 0x200 + i ∧ 0x200 + i < 0x200 + p.length) := by omega
    have hlt : p[i] < 256 := hb _ (List.getElem_mem hi)
    simp only [chip8_get_ram, if_pos ha, chip8_load_ram_apply vm p h, if_pos hr, u8]
    rw [Nat.add_sub_cancel_left, List.getD_eq_getElem _ _ hi]
    omega
  · intro d k hd hk
    have ha : 5 * d + k < RAM_SIZE := by simp only [RAM_SIZE]; omega
    have hr : ¬ (0x200 ≤ 5 * d + k ∧ 5 * d + k < 0x200 + p.length) := by omega
    have hf : 5 * d + k < 80 := by omega
    simp only [chip8_get_ram, if_pos ha, chip8_load_ram_apply vm p h, if_neg hr, if_pos hf, u8]
    interval_cases d <;> interval_cases k <;> rfl

/-- Witness of C3: the two-byte program `12 04` loaded into the zero machine. -/
theorem chip8_load_memory_witness :
    [0x12, 0x04].length ≤ 3584 ∧ (∀ b ∈ [0x12, 0x04], b < 256) ∧
    ((chip8_load zero_vm [0x12, 0x04]).1 = true ∧
     (∀ i, (hi : i < [0x12, 0x04].length) →
       chip8_get_ram (chip8_load zero_vm [0x12, 0x04]).2 (0x200 + i) = [0x12, 0x04][i]) ∧
     (∀ d k, d < 16 → k < 5 →
       chip8_get_ram (chip8_load zero_vm [0x12, 0x04]).2 (5 * d + k)
         = (font_sprite d).getD k 0)) :=
  ⟨by decide, by decide,
   chip8_load_memory zero_vm [0x12, 0x04] (by decide) (by decide)⟩

/-! ## Lemmas: `chip8_cycle` -/

/-- Decoding of an instruction word given by its four nibbles. -/
theorem instr_fields (f x y n : Nat) (hf : f < 16) (hx : x < 16) (hy : y < 16)
    (hn : n < 16) :
    instr f x y n &&& 0xF000 = 0x1000 * f ∧
    (instr f x y n &&& 0x0F00) >>> 8 = x ∧
    (instr f x y n &&& 0x00F0) >>> 4 = y ∧
    instr f x y n &&& 0x000F = n := by
  rw [field_family, field_x, field_y, field_n]
  unfold instr
  omega

/-- Decoding of an instruction word given by family, register and immediate byte. -/
theorem instr_imm_fields (f x nn : Nat) (hf : f < 16) (hx : x < 16) (hnn : nn < 256) :
    instr_imm f x nn &&& 0xF000 = 0x1000 * f ∧
    (instr_imm f x nn &&& 0x0F00) >>> 8 = x ∧
    instr_imm f x nn &&& 0x00FF = nn := by
  rw [field_family, field_x, field_nn]
  unfold instr_imm
  omega

/-- The statements after the `switch` always end in `return true` and touch the
two timers only. -/
theorem tick_timers_ok (vm : chip8_vm) :
    ∃ vm1 snd, tick_timers vm = .ok vm1 snd ∧ vm1.V = vm.V ∧ vm1.ram = vm.ram ∧
      vm1.pc = vm.pc ∧ vm1.I = vm.I ∧ vm1.sp = vm.sp ∧ vm1.stack = vm.stack ∧
      vm1.keys = vm.keys ∧ vm1.fb = vm.fb := by
  unfold tick_timers
  by_cases hd : vm.delay_timer > 0 <;> by_cases hs : vm.sound_timer > 0 <;>
    simp [hd, hs]

/-- A step whose `switch` is left through `break` ends with the timer statements. -/
theorem chip8_cycle_brk (vm vm2 : chip8_vm) (keys vtick rnd op : Nat)
    (hf : fetch vm = some op)
    (he : exec { vm with pc := u16 (vm.pc + 2) } op ((op &&& 0x0F00) >>> 8)
      ((op &&& 0x00F0) >>> 4) rnd = .brk vm2) :
    chip8_cycle vm keys vtick rnd = tick_timers vm2 := by
  simp only [chip8_cycle, hf, he]

/-- A step on a word `8xyn` whose inner `switch` is left through `break` returns
`true` with the registers that the inner `switch` left. -/
theorem chip8_cycle_alu (vm vm2 : chip8_vm) (keys vtick rnd x y n : Nat)
    (hx : x < 16) (hy : y < 16) (hn : n < 16)
    (hf : fetch vm = some (instr 8 x y n))
    (ha : alu { vm with pc := u16 (vm.pc + 2) } (instr 8 x y n) x y = .brk vm2) :
    ∃ vm1 snd, chip8_cycle vm keys vtick rnd = .ok vm1 snd ∧ vm1.V = vm2.V := by
  obtain ⟨h1, h2, h3, -⟩ := instr_fields 8 x y n (by omega) hx hy hn
  have he : exec { vm with pc := u16 (vm.pc + 2) } (instr 8 x y n)
      ((instr 8 x y n &&& 0x0F00) >>> 8) ((instr 8 x y n &&& 0x00F0) >>> 4) rnd
      = .brk vm2 := by
    rw [h2, h3, ← ha]
    unfold exec
    rw [h1]
  rw [chip8_cycle_brk vm vm2 keys vtick rnd _ hf he]
  obtain ⟨vm1, snd, e, hV, -⟩ := tick_timers_ok vm2
  exact ⟨vm1, snd, e, hV⟩

/-! ## Theorems: `chip8_cycle`, arithmetic and logic -/

/-- C7: a step on `8xy0` (copy), `8xy1` (OR), `8xy2` (AND) or `8xy3` (XOR), for any
registers `x`, `y` in 0..15 and whatever VF held, returns `true` and leaves VF = 0;
when `x` is not 0xF it leaves in `V[x]` the old `V[y]`, the old `V[x] OR V[y]`,
`V[x] AND V[y]`, `V[x] XOR V[y]` respectively, where `y = 0xF` reads the old VF. -/
theorem chip8_cycle_logic (vm : chip8_vm) (keys vtick rnd x y n : Nat)
    (hx : x < 16) (hy : y < 16) (hn : n < 4)
    (hVx : vm.V x < 256) (hVy : vm.V y < 256)
    (hf : fetch vm = some (instr 8 x y n)) :
    ∃ vm1 snd, chip8_cycle vm keys vtick rnd = .ok vm1 snd ∧
      vm1.V 0xF = 0 ∧
      (x ≠ 0xF → vm1.V x =
        match n with
        | 0 => vm.V y
        | 1 => vm.V x ||| vm.V y
        | 2 => vm.V x &&& vm.V y
        | _ => vm.V x ^^^ vm.V y) := by
  have hor : vm.V x ||| vm.V y < 256 := Nat.or_lt_two_pow (n := 8) hVx hVy
  have hxor : vm.V x ^^^ vm.V y < 256 := Nat.xor_lt_two_pow (n := 8) hVx hVy
  have hand : vm.V x &&& vm.V y < 256 := Nat.lt_of_le_of_lt Nat.and_le_left hVx
  have h4 := (instr_fields 8 x y n (by omega) hx hy (by omega)).2.2.2
  interval_cases n
  · obtain ⟨vm1, snd, e, hV⟩ := chip8_cycle_alu vm _ keys vtick rnd x y 0 hx hy (by omega) hf
      (by unfold alu; rw [h4])
    refine ⟨vm1, snd, e, ?_, ?_⟩
    · rw [hV]; simp only [upd_same]
    · intro hne; rw [hV]; simp only [upd_other _ _ _ _ hne, upd_same]
  · obtain ⟨vm1, snd, e, hV⟩ := chip8_cycle_alu vm _ keys vtick rnd x y 1 hx hy (by omega) hf
      (by unfold alu; rw [h4])
    refine ⟨vm1, snd, e, ?_, ?_⟩
    · rw [hV]; simp only [upd_same]
    · intro hne; rw [hV]; simp only [upd_other _ _ _ _ hne, upd_same, u8]; omega
  · obtain ⟨vm1, snd, e, hV⟩ := chip8_cycle_alu vm _ keys vtick rnd x y 2 hx hy (by omega) hf
      (by unfold alu; rw [h4])
    refine ⟨vm1, snd, e, ?_, ?_⟩
    · rw [hV]; simp only [upd_same]
    · intro hne; rw [hV]; simp only [upd_other _ _ _ _ hne, upd_same, u8]; omega
  · obtain ⟨vm1, snd, e, hV⟩ := chip8_cycle_alu vm _ keys vtick rnd x y 3 hx hy (by omega) hf
      (by unfold alu; rw [h4])
    refine ⟨vm1, snd, e, ?_, ?_⟩
    · rw [hV]; simp only [upd_same]
    · intro hne; rw [hV]; simp only [upd_other _ _ _ _ hne, upd_same, u8]; omega

/-- Witness of C7: the fixture's `8011` with V0 = 1, V1 = 2 and VF = 1. -/
theorem chip8_cycle_logic_witness :
    (0 < 16 ∧ 1 < 16 ∧ 1 < 4 ∧ or_input.V 0 < 256 ∧ or_input.V 1 < 256 ∧
      fetch or_input = some (instr 8 0 1 1)) ∧
    ∃ vm1 snd, chip8_cycle or_input 0 0 0 = .ok vm1 snd ∧
      vm1.V 0xF = 0 ∧
      (0 ≠ 0xF → vm1.V 0 = or_input.V 0 ||| or_input.V 1) :=
  ⟨⟨by decide, by decide, by decide, by decide, by decide, by decide⟩,
   chip8_cycle_logic or_input 0 0 0 0 1 1 (by decide) (by decide) (by decide)
     (by decide) (by decide) (by decide)⟩

/-- C8: a step on `7xnn` with `x` in 0..14 returns `true`, leaves
`V[x] = (old V[x] + nn) mod 256`, and leaves every other register as it was, VF
included, whatever value VF held. -/
theorem chip8_cycle_add_imm (vm : chip8_vm) (keys vtick rnd x nn : Nat)
    (hx : x < 15) (hnn : nn < 256)
    (hf : fetch vm = some (instr_imm 7 x nn)) :
    ∃ vm1 snd, chip8_cycle vm keys vtick rnd = .ok vm1 snd ∧
      vm1.V x = (vm.V x + nn) % 256 ∧
      vm1.V 0xF = vm.V 0xF ∧
      (∀ i, i ≠ x → vm1.V i = vm.V i) := by
  obtain ⟨h1, h2, h3⟩ := instr_imm_fields 7 x nn (by omega) (by omega) hnn
  have he : exec { vm with pc := u16 (vm.pc + 2) } (instr_imm 7 x nn)
      ((instr_imm 7 x nn &&& 0x0F00) >>> 8) ((instr_imm 7 x nn &&& 0x00F0) >>> 4) rnd
      = .brk { vm with pc := u16 (vm.pc + 2), V := upd vm.V x (u8 (vm.V x + nn)) } := by
    rw [h2]
    unfold exec
    rw [h1]
    simp only [h3]
  rw [chip8_cycle_brk vm _ keys vtick rnd _ hf he]
  obtain ⟨vm1, snd, e, hV, -⟩ := tick_timers_ok
    { vm with pc := u16 (vm.pc + 2), V := upd vm.V x (u8 (vm.V x + nn)) }
  refine ⟨vm1, snd, e, ?_, ?_, ?_⟩
  · rw [hV]; simp only [upd_same, u8]
  · rw [hV]; simp only [upd_other _ _ _ _ (show 0xF ≠ x by omega)]
  · intro i hi
    rw [hV]; simp only [upd_other _ _ _ _ hi]

/-- Witness of C8: the fixture's `70FF` with V0 = 2 and VF = 42. -/
theorem chip8_cycle_add_imm_witness :
    (0 < 15 ∧ 0xFF < 256 ∧ fetch add_imm_input = some (instr_imm 7 0 0xFF)) ∧
    ∃ vm1 snd, chip8_cycle add_imm_input 0 0 0 = .ok vm1 snd ∧
      vm1.V 0 = (add_imm_input.V 0 + 0xFF) % 256 ∧
      vm1.V 0xF = add_imm_input.V 0xF ∧
      (∀ i, i ≠ 0 → vm1.V i = add_imm_input.V i) :=
  ⟨⟨by decide, by decide, by decide⟩,
   chip8_cycle_add_imm add_imm_input 0 0 0 0 0xFF (by decide) (by decide) (by decide)⟩

/-- C4, evaluated at a failing input: on `8F04` with V0 = 5 and VF = 0 the sum of
the operands is 5, which does not exceed 255, and the step leaves VF = 5, a value
that is neither 0 nor 1. -/
theorem chip8_cycle_add_into_flag :
    fetch add_into_flag_input = some (instr 8 0xF 0 4) ∧
    add_into_flag_input.V 0xF + add_into_flag_input.V 0 = 5 ∧
    (chip8_cycle add_into_flag_input 0 0 0).reg 0xF = some 5 := by
  decide

/-- C5, evaluated at a failing input: on `80F4` with V0 = 1 and VF = 5 the sum of
the operands is 6, and the step leaves V0 = 1. -/
theorem chip8_cycle_add_from_flag :
    fetch add_from_flag_input = some (instr 8 0 0xF 4) ∧
    (add_from_flag_input.V 0 + add_from_flag_input.V 0xF) % 256 = 6 ∧
    (chip8_cycle add_from_flag_input 0 0 0).reg 0 = some 1 := by
  decide

/-- C6, evaluated at failing inputs: with V0 = V1 = 1 the step on `8015` and the
step on `8017` both leave VF = 0, although neither subtraction borrows. -/
theorem chip8_cycle_sub_equal :
    fetch sub_equal_input = some (instr 8 0 1 5) ∧
    sub_equal_input.V 0 = sub_equal_input.V 1 ∧
    (chip8_cycle sub_equal_input 0 0 0).reg 0xF = some 0 ∧
    fetch rsub_equal_input = some (instr 8 0 1 7) ∧
    rsub_equal_input.V 0 = rsub_equal_input.V 1 ∧
    (chip8_cycle rsub_equal_input 0 0 0).reg 0xF = some 0 := by
  decide

/-- C9, evaluated at a failing input: on the fixture's `8E06` with V0 = 1 and
VE = 0 the step leaves VE = 1, where `1 >> 1` is 0; VF is left at 1. -/
theorem chip8_cycle_shr_fixture :
    fetch shr_input = some (instr 8 0xE 0 6) ∧
    shr_input.V 0 >>> 1 = 0 ∧
    (chip8_cycle shr_input 0 0 0).reg 0xE = some 1 ∧
    (chip8_cycle shr_input 0 0 0).reg 0xF = some 1 := by
  decide

/-- C10, evaluated at a failing input: on the fixture's `8EAE` with VA = 0x7f and
VE = 0 the step leaves VE = 0, where `(0x7f * 2) mod 256` is 0xfe; VF is left
at 0. -/
theorem chip8_cycle_shl_fixture :
    fetch shl_input = some (instr 8 0xE 0xA 0xE) ∧
    (shl_input.V 0xA * 2) % 256 = 0xfe ∧
    (chip8_cycle shl_input 0 0 0).reg 0xE = some 0 ∧
    (chip8_cycle shl_input 0 0 0).reg 0xF = some 0 := by
  decide

/-! ## What the arithmetic instructions do away from VF

The next lemmas describe the `switch` cases of `8xy4`, `8xy5`, `8xy7` and `8xyE` as
they are written, for a destination other than VF. -/

/-- On `8xy4` with a destination other than VF, VF becomes the carry of the old
operands, and `V[x]` becomes their sum modulo 256 when the source is not VF
either. -/
theorem chip8_cycle_add_regs (vm : chip8_vm) (keys vtick rnd x y : Nat)
    (hx : x < 15) (hy : y < 16)
    (hf : fetch vm = some (instr 8 x y 4)) :
    ∃ vm1 snd, chip8_cycle vm keys vtick rnd = .ok vm1 snd ∧
      vm1.V 0xF = (if vm.V x + vm.V y > 255 then 1 else 0) ∧
      (y ≠ 0xF → vm1.V x = (vm.V x + vm.V y) % 256) := by
  have h4 := (instr_fields 8 x y 4 (by omega) (by omega) hy (by omega)).2.2.2
  obtain ⟨vm1, snd, e, hV⟩ := chip8_cycle_alu vm _ keys vtick rnd x y 4 (by omega) hy
    (by omega) hf (by unfold alu; rw [h4])
  have hxF : x ≠ 0xF := by omega
  refine ⟨vm1, snd, e, ?_, ?_⟩
  · rw [hV]
    simp only [upd_other _ _ _ _ (Ne.symm hxF), upd_same]
  · intro hyF
    rw [hV]
    simp only [upd_same, upd_other _ _ _ _ hxF, upd_other _ _ _ _ hyF, field_nn]

/-- On `8xy5` with a destination other than VF, VF becomes 1 when the old `V[x]` is
strictly greater than the old `V[y]` and 0 otherwise. -/
theorem chip8_cycle_sub_flag (vm : chip8_vm) (keys vtick rnd x y : Nat)
    (hx : x < 15) (hy : y < 16)
    (hf : fetch vm = some (instr 8 x y 5)) :
    ∃ vm1 snd, chip8_cycle vm keys vtick rnd = .ok vm1 snd ∧
      vm1.V 0xF = (if vm.V x > vm.V y then 1 else 0) := by
  have h4 := (instr_fields 8 x y 5 (by omega) (by omega) hy (by omega)).2.2.2
  obtain ⟨vm1, snd, e, hV⟩ := chip8_cycle_alu vm _ keys vtick rnd x y 5 (by omega) hy
    (by omega) hf (by unfold alu; rw [h4])
  have hxF : x ≠ 0xF := by omega
  refine ⟨vm1, snd, e, ?_⟩
  rw [hV]
  simp only [upd_other _ _ _ _ (Ne.symm hxF), upd_same]

/-- On `8xy7` with a destination other than VF, VF becomes 1 when the old `V[y]` is
strictly greater than the old `V[x]` and 0 otherwise. -/
theorem chip8_cycle_rsub_flag (vm : chip8_vm) (keys vtick rnd x y : Nat)
    (hx : x < 15) (hy : y < 16)
    (hf : fetch vm = some (instr 8 x y 7)) :
    ∃ vm1 snd, chip8_cycle vm keys vtick rnd = .ok vm1 snd ∧
      vm1.V 0xF = (if vm.V y > vm.V x then 1 else 0) := by
  have h4 := (instr_fields 8 x y 7 (by omega) (by omega) hy (by omega)).2.2.2
  obtain ⟨vm1, snd, e, hV⟩ := chip8_cycle_alu vm _ keys vtick rnd x y 7 (by omega) hy
    (by omega) hf (by unfold alu; rw [h4]; rfl)
  have hxF : x ≠ 0xF := by omega
  refine ⟨vm1, snd, e, ?_⟩
  rw [hV]
  simp only [upd_other _ _ _ _ (Ne.symm hxF), upd_same]

/-- On `8xyE` with a destination other than VF, `V[x]` is shifted in place: it
becomes the old `V[x]` doubled modulo 256 and VF becomes bit 7 of the old `V[x]`;
`V[y]` is not read. -/
theorem chip8_cycle_shl_in_place (vm : chip8_vm) (keys vtick rnd x y : Nat)
    (hx : x < 15) (hy : y < 16)
    (hf : fetch vm = some (instr 8 x y 0xE)) :
    ∃ vm1 snd, chip8_cycle vm keys vtick rnd = .ok vm1 snd ∧
      vm1.V x = (vm.V x * 2) % 256 ∧
      vm1.V 0xF = vm.V x / 128 % 2 := by
  have h4 := (instr_fields 8 x y 0xE (by omega) (by omega) hy (by omega)).2.2.2
  obtain ⟨vm1, snd, e, hV⟩ := chip8_cycle_alu vm _ keys vtick rnd x y 0xE (by omega) hy
    (by omega) hf (by unfold alu; rw [h4])
  have hxF : x ≠ 0xF := by omega
  refine ⟨vm1, snd, e, ?_, ?_⟩
  · rw [hV]
    simp only [upd_same, upd_other _ _ _ _ hxF, u8, Nat.shiftLeft_eq, Nat.pow_one]
  · rw [hV]
    simp only [upd_other _ _ _ _ (Ne.symm hxF), upd_same, bit_seven]

/-! ## Theorems: timers, sound and keys -/

/-- C11, evaluated at a failing input: on the jump-to-self `1200`, which writes no
timer, with both timers at 3, a first step with tick 7 leaves them at 2; a second
step with the same tick 7 leaves them at 1 instead of 2, and a second step with
tick 12, five ticks later, leaves them at 1 instead of 0. -/
theorem chip8_cycle_timers_per_step :
    fetch timers_input = some (instr_addr 1 0x200) ∧
    (next 0 7 0 timers_input).map (fun s => (s.delay_timer, s.sound_timer)) = some (2, 2) ∧
    ((next 0 7 0 timers_input).bind (next 0 7 0)).map
      (fun s => (s.delay_timer, s.sound_timer)) = some (1, 1) ∧
    ((next 0 7 0 timers_input).bind (next 0 12 0)).map
      (fun s => (s.delay_timer, s.sound_timer)) = some (1, 1) := by
  decide

/-- C12, evaluated at a failing input: on the jump-to-self `1200`, which writes no
timer, with the sound timer at 1 the step returns `true` and reports the sound
flag as `true`. -/
theorem chip8_cycle_sound_at_one :
    fetch sound_one_input = some (instr_addr 1 0x200) ∧
    sound_one_input.sound_timer = 1 ∧
    (chip8_cycle sound_one_input 0 0 0).sound = some true := by
  decide

/-- C13, evaluated at a failing input: with V1 = 3 the step on `F115` returns
`true` and leaves the delay timer at 0; the next step, on `F207` with the same
tick, leaves V2 at 0; the third step, on `F118`, leaves the sound timer at 0. -/
theorem chip8_cycle_timer_instructions :
    fetch set_timer_input = some (instr_imm 0xF 1 0x15) ∧
    set_timer_input.V 1 = 3 ∧
    (next 0 0 0 set_timer_input).map (fun s => s.delay_timer) = some 0 ∧
    (next 0 0 0 set_timer_input).map fetch = some (some (instr_imm 0xF 2 0x07)) ∧
    ((next 0 0 0 set_timer_input).bind (next 0 0 0)).map (fun s => s.V 2) = some 0 ∧
    ((next 0 0 0 set_timer_input).bind (next 0 0 0)).map fetch
      = some (some (instr_imm 0xF 1 0x18)) ∧
    (((next 0 0 0 set_timer_input).bind (next 0 0 0)).bind (next 0 0 0)).map
      (fun s => s.sound_timer) = some 0 := by
  decide

/-- C14, evaluated at a failing input: with no key down (key mask 0) the step on
`F30A` at 0x200 returns `true` and leaves the program counter at 0x202, and a second
step leaves it at 0x204; V3 stays 0.  With key 4 down (key mask 0x0010) the step
leaves V3 at 0 as well. -/
theorem chip8_cycle_wait_key_advances :
    fetch wait_key_input = some (instr_imm 0xF 3 0x0A) ∧
    wait_key_input.pc = 0x200 ∧
    (next 0 0 0 wait_key_input).map (fun s => (s.pc, s.V 3)) = some (0x202, 0) ∧
    ((next 0 0 0 wait_key_input).bind (next 0 0 0)).map (fun s => (s.pc, s.V 3))
      = some (0x204, 0) ∧
    (next 0x0010 0 0 wait_key_input).map (fun s => (s.pc, s.V 3)) = some (0x202, 0) := by
  decide

/-- C15, evaluated at failing inputs: with V0 = 1 and the key mask 0x0002, whose
bit 1 is set, the step on `E09E` at 0x200 leaves the program counter at 0x202 (no
skip), and the step on `E0A1` at 0x200 leaves it at 0x204 (skip). -/
theorem chip8_cycle_key_mask_ignored :
    fetch key_down_input = some (instr_imm 0xE 0 0x9E) ∧
    key_down_input.pc = 0x200 ∧
    Nat.testBit 0x0002 (key_down_input.V 0) = true ∧
    (next 0x0002 0 0 key_down_input).map (fun s => s.pc) = some 0x202 ∧
    fetch key_up_input = some (instr_imm 0xE 0 0xA1) ∧
    key_up_input.pc = 0x200 ∧
    Nat.testBit 0x0002 (key_up_input.V 0) = true ∧
    (next 0x0002 0 0 key_up_input).map (fun s => s.pc) = some 0x204 := by
  decide

/-! ## Lemmas: control flow and memory transfer -/

/-- Decoding of an instruction word given by family and address. -/
theorem instr_addr_fields (f nnn : Nat) (hf : f < 16) (hnnn : nnn < 4096) :
    instr_addr f nnn &&& 0xF000 = 0x1000 * f ∧
    instr_addr f nnn &&& 0x0FFF = nnn := by
  rw [field_family, field_nnn]
  unfold instr_addr
  omega

/-- The low byte of an instruction word given by its four nibbles. -/
theorem instr_low_byte (f x y n : Nat) (hy : y < 16) (hn : n < 16) :
    instr f x y n &&& 0x00FF = 0x10 * y + n := by
  rw [field_nn]
  unfold instr
  omega

/-- A fetched instruction lies inside `ram`. -/
theorem fetch_bound (vm : chip8_vm) (op : Nat) (h : fetch vm = some op) :
    vm.pc + 1 < RAM_SIZE := by
  unfold fetch at h
  by_cases hb : vm.pc + 1 < RAM_SIZE
  · exact hb
  · rw [if_neg hb] at h
    cases h

/-- The fetched word depends on the program counter and on `ram` only. -/
theorem fetch_congr (a b : chip8_vm) (h1 : a.pc = b.pc) (h2 : a.ram = b.ram) :
    fetch a = fetch b := by
  unfold fetch
  rw [h1, h2]

/-- A step whose `switch` is left through `break` returns `true`; apart from the
timers the machine is as the `switch` left it. -/
theorem chip8_cycle_ok (vm vm2 : chip8_vm) (keys vtick rnd op : Nat)
    (hf : fetch vm = some op)
    (he : exec { vm with pc := u16 (vm.pc + 2) } op ((op &&& 0x0F00) >>> 8)
      ((op &&& 0x00F0) >>> 4) rnd = .brk vm2) :
    ∃ vm1 snd, chip8_cycle vm keys vtick rnd = .ok vm1 snd ∧ vm1.V = vm2.V ∧
      vm1.ram = vm2.ram ∧ vm1.pc = vm2.pc ∧ vm1.I = vm2.I ∧ vm1.sp = vm2.sp ∧
      vm1.stack = vm2.stack ∧ vm1.keys = vm2.keys ∧ vm1.fb = vm2.fb := by
  rw [chip8_cycle_brk vm vm2 keys vtick rnd op hf he]
  exact tick_timers_ok vm2

/-- A step whose `switch` is left through `return false` returns `false`. -/
theorem chip8_cycle_ret_false (vm vm2 : chip8_vm) (keys vtick rnd op : Nat)
    (hf : fetch vm = some op)
    (he : exec { vm with pc := u16 (vm.pc + 2) } op ((op &&& 0x0F00) >>> 8)
      ((op &&& 0x00F0) >>> 4) rnd = .ret_false vm2) :
    chip8_cycle vm keys vtick rnd = .fail vm2 := by
  simp only [chip8_cycle, hf, he]

/-- The step on `1nnn`. -/
theorem chip8_cycle_jump_step (vm : chip8_vm) (keys vtick rnd nnn : Nat)
    (hnnn : nnn < 4096) (hf : fetch vm = some (instr_addr 1 nnn)) :
    ∃ vm1 snd, chip8_cycle vm keys vtick rnd = .ok vm1 snd ∧
      vm1.pc = nnn ∧ vm1.V = vm.V ∧ vm1.I = vm.I ∧ vm1.stack = vm.stack ∧
      vm1.sp = vm.sp ∧ vm1.ram = vm.ram := by
  obtain ⟨h1, h2⟩ := instr_addr_fields 1 nnn (by omega) hnnn
  have he : exec { vm with pc := u16 (vm.pc + 2) } (instr_addr 1 nnn)
      ((instr_addr 1 nnn &&& 0x0F00) >>> 8) ((instr_addr 1 nnn &&& 0x00F0) >>> 4) rnd
      = .brk { vm with pc := nnn } := by
    unfold exec
    rw [h1]
    simp only [h2]
  obtain ⟨vm1, snd, e, hV, hram, hpc, hI, hsp, hstack, -⟩ :=
    chip8_cycle_ok vm _ keys vtick rnd _ hf he
  exact ⟨vm1, snd, e, hpc, hV, hI, hstack, hsp, hram⟩

/-- The step on `6xnn`. -/
theorem chip8_cycle_set_imm_step (vm : chip8_vm) (keys vtick rnd x nn : Nat)
    (hx : x < 16) (hnn : nn < 256) (hf : fetch vm = some (instr_imm 6 x nn)) :
    ∃ vm1 snd, chip8_cycle vm keys vtick rnd = .ok vm1 snd ∧
      vm1.pc = vm.pc + 2 ∧ vm1.V = upd vm.V x nn ∧ vm1.ram = vm.ram := by
  obtain ⟨h1, h2, h3⟩ := instr_imm_fields 6 x nn (by omega) hx hnn
  have hb := fetch_bound vm _ hf
  have he : exec { vm with pc := u16 (vm.pc + 2) } (instr_imm 6 x nn)
      ((instr_imm 6 x nn &&& 0x0F00) >>> 8) ((instr_imm 6 x nn &&& 0x00F0) >>> 4) rnd
      = .brk { vm with pc := u16 (vm.pc + 2), V := upd vm.V x nn } := by
    rw [h2]
    unfold exec
    rw [h1]
    simp only [h3]
  obtain ⟨vm1, snd, e, hV, hram, hpc, -⟩ := chip8_cycle_ok vm _ keys vtick rnd _ hf he
  refine ⟨vm1, snd, e, ?_, hV, hram⟩
  rw [hpc]
  simp only [u16, RAM_SIZE] at hb ⊢
  omega

/-- The instruction word at an address below 0x200 + length of a loaded program. -/
theorem fetch_loaded (vm0 vm : chip8_vm) (p : List Nat) (h : p.length ≤ 3584) (i : Nat)
    (hi : i + 1 < p.length) (hram : vm.ram = (chip8_load vm0 p).2.ram)
    (hpc : vm.pc = 0x200 + i) :
    fetch vm = some (u16 ((p.getD i 0 <<< 8) ||| p.getD (i + 1) 0)) := by
  have hb : vm.pc + 1 < RAM_SIZE := by simp only [RAM_SIZE]; omega
  have r1 : 0x200 ≤ 0x200 + i ∧ 0x200 + i < 0x200 + p.length := by omega
  have r2 : 0x200 ≤ 0x200 + i + 1 ∧ 0x200 + i + 1 < 0x200 + p.length := by omega
  unfold fetch
  rw [if_pos hb, hram, hpc, chip8_load_ram_apply vm0 p h, chip8_load_ram_apply vm0 p h,
    if_pos r1, if_pos r2]
  have e1 : 0x200 + i - 0x200 = i := by omega
  have e2 : 0x200 + i + 1 - 0x200 = i + 1 := by omega
  rw [e1, e2]

/-! ## Theorems: control flow -/

/-- C16: a step on the jump `1nnn`, for any 12-bit address `nnn`, returns `true` and
leaves the program counter at `nnn`, with the registers, the index register, the
stack, the stack pointer and the memory as they were.  And the scenario: from any
machine, after `chip8_load` of `jump 0x204; filler; V0 := 0x28; V1 := 0x29` one step
leaves the program counter at 0x204, the next leaves V0 = 0x28, and the one after
leaves V0 = 0x28 and V1 = 0x29. -/
theorem chip8_cycle_jump (vm : chip8_vm) (keys vtick rnd nnn : Nat)
    (hnnn : nnn < 4096) (hf : fetch vm = some (instr_addr 1 nnn)) :
    (∃ vm1 snd, chip8_cycle vm keys vtick rnd = .ok vm1 snd ∧
      vm1.pc = nnn ∧ vm1.V = vm.V ∧ vm1.I = vm.I ∧ vm1.stack = vm.stack ∧
      vm1.sp = vm.sp ∧ vm1.ram = vm.ram) ∧
    (∀ vm0 : chip8_vm, (chip8_load vm0 jump_program).1 = true ∧
      ∃ vm1 s1 vm2 s2 vm3 s3,
        chip8_cycle (chip8_load vm0 jump_program).2 keys vtick rnd = .ok vm1 s1 ∧
        vm1.pc = 0x204 ∧
        chip8_cycle vm1 keys vtick rnd = .ok vm2 s2 ∧ vm2.V 0 = 0x28 ∧
        chip8_cycle vm2 keys vtick rnd = .ok vm3 s3 ∧ vm3.V 0 = 0x28 ∧
        vm3.V 1 = 0x29) := by
  refine ⟨chip8_cycle_jump_step vm keys vtick rnd nnn hnnn hf, ?_⟩
  intro vm0
  have hlen : jump_program.length ≤ 3584 := by decide
  obtain ⟨hret, hpc0, -⟩ := chip8_load_resets vm0 jump_program hlen
  refine ⟨hret, ?_⟩
  have f0 : fetch (chip8_load vm0 jump_program).2 = some (instr_addr 1 0x204) := by
    rw [fetch_loaded vm0 _ jump_program hlen 0 (by decide) rfl hpc0]
    rfl
  obtain ⟨vm1, s1, e1, hpc1, hV1, -, -, -, hram1⟩ :=
    chip8_cycle_jump_step _ keys vtick rnd 0x204 (by omega) f0
  have f1 : fetch vm1 = some (instr_imm 6 0 0x28) := by
    rw [fetch_loaded vm0 vm1 jump_program hlen 4 (by decide) hram1 hpc1]
    rfl
  obtain ⟨vm2, s2, e2, hpc2, hV2, hram2⟩ :=
    chip8_cycle_set_imm_step vm1 keys vtick rnd 0 0x28 (by omega) (by omega) f1
  have f2 : fetch vm2 = some (instr_imm 6 1 0x29) := by
    rw [fetch_loaded vm0 vm2 jump_program hlen 6 (by decide) (hram2.trans hram1)
      (by rw [hpc2, hpc1])]
    rfl
  obtain ⟨vm3, s3, e3, -, hV3, -⟩ :=
    chip8_cycle_set_imm_step vm2 keys vtick rnd 1 0x29 (by omega) (by omega) f2
  refine ⟨vm1, s1, vm2, s2, vm3, s3, e1, hpc1, e2, ?_, e3, ?_, ?_⟩
  · rw [hV2]; simp only [upd_same]
  · rw [hV3, hV2]; simp only [upd_other _ _ _ _ (show (0 : Nat) ≠ 1 by omega), upd_same]
  · rw [hV3]; simp only [upd_same]

/-- Witness of C16: the first instruction of `test_prog1`, `1204`, in the zero
machine after `chip8_load` of `jump_program`. -/
theorem chip8_cycle_jump_witness :
    (0x204 < 4096 ∧ fetch (chip8_load zero_vm jump_program).2 = some (instr_addr 1 0x204)) ∧
    ((∃ vm1 snd, chip8_cycle (chip8_load zero_vm jump_program).2 0 0 0 = .ok vm1 snd ∧
      vm1.pc = 0x204 ∧ vm1.V = (chip8_load zero_vm jump_program).2.V ∧
      vm1.I = (chip8_load zero_vm jump_program).2.I ∧
      vm1.stack = (chip8_load zero_vm jump_program).2.stack ∧
      vm1.sp = (chip8_load zero_vm jump_program).2.sp ∧
      vm1.ram = (chip8_load zero_vm jump_program).2.ram) ∧
    (∀ vm0 : chip8_vm, (chip8_load vm0 jump_program).1 = true ∧
      ∃ vm1 s1 vm2 s2 vm3 s3,
        chip8_cycle (chip8_load vm0 jump_program).2 0 0 0 = .ok vm1 s1 ∧
        vm1.pc = 0x204 ∧
        chip8_cycle vm1 0 0 0 = .ok vm2 s2 ∧ vm2.V 0 = 0x28 ∧
        chip8_cycle vm2 0 0 0 = .ok vm3 s3 ∧ vm3.V 0 = 0x28 ∧
        vm3.V 1 = 0x29)) :=
  ⟨⟨by decide, by decide⟩,
   chip8_cycle_jump (chip8_load zero_vm jump_program).2 0 0 0 0x204 (by decide) (by decide)⟩

/-- A step on a conditional skip whose condition is `c`: away from the top of the
address space the program counter moves on by 4 when `c` holds and by 2 otherwise,
and no register changes. -/
theorem chip8_cycle_skip_step (vm : chip8_vm) (keys vtick rnd op : Nat) (c : Prop)
    [Decidable c] (hpc : vm.pc ≤ 0xFFA) (hf : fetch vm = some op)
    (he : exec { vm with pc := u16 (vm.pc + 2) } op ((op &&& 0x0F00) >>> 8)
      ((op &&& 0x00F0) >>> 4) rnd =
        if c then .brk { vm with pc := u16 (u16 (vm.pc + 2) + 2) }
        else .brk { vm with pc := u16 (vm.pc + 2) }) :
    ∃ vm1 snd, chip8_cycle vm keys vtick rnd = .ok vm1 snd ∧ vm1.V = vm.V ∧
      vm1.pc = vm.pc + (if c then 4 else 2) := by
  by_cases hc : c
  · rw [if_pos hc] at he
    obtain ⟨vm1, snd, e, hV, -, hp, -⟩ := chip8_cycle_ok vm _ keys vtick rnd op hf he
    refine ⟨vm1, snd, e, hV, ?_⟩
    rw [hp, if_pos hc]
    simp only [u16]
    omega
  · rw [if_neg hc] at he
    obtain ⟨vm1, snd, e, hV, -, hp, -⟩ := chip8_cycle_ok vm _ keys vtick rnd op hf he
    refine ⟨vm1, snd, e, hV, ?_⟩
    rw [hp, if_neg hc]
    simp only [u16]
    omega

/-- C17: from a program counter `pc ≤ 0xFFA`, a step on a conditional skip returns
`true`, changes no register, and leaves the program counter at `pc + 4` when the
condition holds and at `pc + 2` otherwise; the condition is `V[x] = nn` for `3xnn`
(`f = 3`), `V[x] ≠ nn` for `4xnn` (`f = 4`), `V[x] = V[y]` for `5xy0` (`f = 5`) and
`V[x] ≠ V[y]` for `9xy0` (`f = 9`). -/
theorem chip8_cycle_skip (vm : chip8_vm) (keys vtick rnd f x y nn : Nat)
    (hfam : f = 3 ∨ f = 4 ∨ f = 5 ∨ f = 9)
    (hx : x < 16) (hy : y < 16) (hnn : nn < 256) (hpc : vm.pc ≤ 0xFFA)
    (hf : fetch vm = some (match f with
      | 3 => instr_imm 3 x nn
      | 4 => instr_imm 4 x nn
      | 5 => instr 5 x y 0
      | _ => instr 9 x y 0)) :
    ∃ vm1 snd, chip8_cycle vm keys vtick rnd = .ok vm1 snd ∧ vm1.V = vm.V ∧
      vm1.pc = vm.pc + (match f with
        | 3 => if vm.V x = nn then 4 else 2
        | 4 => if vm.V x ≠ nn then 4 else 2
        | 5 => if vm.V x = vm.V y then 4 else 2
        | _ => if vm.V x ≠ vm.V y then 4 else 2) := by
  rcases hfam with h | h | h | h <;> subst h <;> simp only at hf ⊢
  · obtain ⟨h1, h2, h3⟩ := instr_imm_fields 3 x nn (by omega) hx hnn
    apply chip8_cycle_skip_step vm keys vtick rnd _ (vm.V x = nn) hpc hf
    rw [h2]
    unfold exec
    rw [h1]
    simp only [h3]
  · obtain ⟨h1, h2, h3⟩ := instr_imm_fields 4 x nn (by omega) hx hnn
    apply chip8_cycle_skip_step vm keys vtick rnd _ (vm.V x ≠ nn) hpc hf
    rw [h2]
    unfold exec
    rw [h1]
    simp only [h3]
  · obtain ⟨h1, h2, h3, -⟩ := instr_fields 5 x y 0 (by omega) hx hy (by omega)
    apply chip8_cycle_skip_step vm keys vtick rnd _ (vm.V x = vm.V y) hpc hf
    rw [h2, h3]
    unfold exec
    rw [h1]
  · obtain ⟨h1, h2, h3, -⟩ := instr_fields 9 x y 0 (by omega) hx hy (by omega)
    apply chip8_cycle_skip_step vm keys vtick rnd _ (vm.V x ≠ vm.V y) hpc hf
    rw [h2, h3]
    unfold exec
    rw [h1]

/-- Witness of C17: the fixture's `302A` with V0 = 0x2A, at 0x200. -/
theorem chip8_cycle_skip_witness :
    ((3 = 3 ∨ 3 = 4 ∨ 3 = 5 ∨ 3 = 9) ∧ 0 < 16 ∧ 0 < 16 ∧ 0x2A < 256 ∧
      skip_input.pc ≤ 0xFFA ∧ fetch skip_input = some (instr_imm 3 0 0x2A)) ∧
    ∃ vm1 snd, chip8_cycle skip_input 0 0 0 = .ok vm1 snd ∧ vm1.V = skip_input.V ∧
      vm1.pc = skip_input.pc + (if skip_input.V 0 = 0x2A then 4 else 2) :=
  ⟨⟨by decide, by decide, by decide, by decide, by decide, by decide⟩,
   chip8_cycle_skip skip_input 0 0 0 3 0 0 0x2A (by decide) (by decide) (by decide)
     (by decide) (by decide) (by decide)⟩

/-- The step on the call `2nnn` while a stack slot is free. -/
theorem chip8_cycle_call_step (vm : chip8_vm) (keys vtick rnd nnn : Nat)
    (hnnn : nnn < 4096) (hsp : vm.sp < 16) (hf : fetch vm = some (instr_addr 2 nnn)) :
    ∃ vm1 snd, chip8_cycle vm keys vtick rnd = .ok vm1 snd ∧
      vm1.pc = nnn ∧ vm1.sp = vm.sp + 1 ∧
      vm1.stack = upd vm.stack vm.sp (vm.pc + 2) ∧ vm1.ram = vm.ram := by
  obtain ⟨h1, h2⟩ := instr_addr_fields 2 nnn (by omega) hnnn
  have hb := fetch_bound vm _ hf
  have hs : vm.sp < STACK_SLOTS := hsp
  have hu : u16 (vm.pc + 2) = vm.pc + 2 := by
    simp only [u16, RAM_SIZE] at hb ⊢
    omega
  have he : exec { vm with pc := u16 (vm.pc + 2) } (instr_addr 2 nnn)
      ((instr_addr 2 nnn &&& 0x0F00) >>> 8) ((instr_addr 2 nnn &&& 0x00F0) >>> 4) rnd
      = .brk { vm with stack := upd vm.stack vm.sp (vm.pc + 2), sp := vm.sp + 1,
                       pc := nnn } := by
    unfold exec
    rw [h1]
    simp only [h2, hu, if_pos hs]
  obtain ⟨vm1, snd, e, -, hram, hpc, -, hsp1, hstack, -⟩ :=
    chip8_cycle_ok vm _ keys vtick rnd _ hf he
  exact ⟨vm1, snd, e, hpc, hsp1, hstack, hram⟩

/-- The step on the call `2nnn` while the stack is full. -/
theorem chip8_cycle_call_full (vm : chip8_vm) (keys vtick rnd nnn : Nat)
    (hnnn : nnn < 4096) (hsp : ¬ vm.sp < 16) (hf : fetch vm = some (instr_addr 2 nnn)) :
    chip8_cycle vm keys vtick rnd = .fail { vm with pc := u16 (vm.pc + 2) } := by
  obtain ⟨h1, -⟩ := instr_addr_fields 2 nnn (by omega) hnnn
  have hs : ¬ vm.sp < STACK_SLOTS := hsp
  apply chip8_cycle_ret_false vm _ keys vtick rnd _ hf
  unfold exec
  rw [h1]
  simp only [if_neg hs]

/-- The step on the return `00EE` while the stack holds an entry. -/
theorem chip8_cycle_return_step (vm : chip8_vm) (keys vtick rnd : Nat)
    (hsp : 0 < vm.sp) (hsp2 : vm.sp ≤ 16) (hf : fetch vm = some 0x00EE) :
    ∃ vm1 snd, chip8_cycle vm keys vtick rnd = .ok vm1 snd ∧
      vm1.pc = vm.stack (vm.sp - 1) ∧ vm1.sp = vm.sp - 1 ∧ vm1.ram = vm.ram := by
  have hs : vm.sp > 0 := hsp
  have hs2 : vm.sp - 1 < STACK_SLOTS := by simp only [STACK_SLOTS]; omega
  have he : exec { vm with pc := u16 (vm.pc + 2) } 0x00EE
      ((0x00EE &&& 0x0F00) >>> 8) ((0x00EE &&& 0x00F0) >>> 4) rnd
      = .brk { vm with sp := vm.sp - 1, pc := vm.stack (vm.sp - 1) } := by
    unfold exec
    simp only [if_pos hs, if_pos hs2]
    rfl
  obtain ⟨vm1, snd, e, -, hram, hpc, -, hsp1, -⟩ :=
    chip8_cycle_ok vm _ keys vtick rnd _ hf he
  exact ⟨vm1, snd, e, hpc, hsp1, hram⟩

/-- The step on the return `00EE` while the stack is empty. -/
theorem chip8_cycle_return_empty (vm : chip8_vm) (keys vtick rnd : Nat)
    (hsp : vm.sp = 0) (hf : fetch vm = some 0x00EE) :
    chip8_cycle vm keys vtick rnd = .fail { vm with pc := u16 (vm.pc + 2) } := by
  have hs : ¬ vm.sp > 0 := by omega
  apply chip8_cycle_ret_false vm _ keys vtick rnd _ hf
  unfold exec
  simp only [if_neg hs]
  rfl

/-- C18: with the stack pointer at most 16, a step on the call `2nnn` (`f = 2`)
returns `false` exactly when the stack pointer is 16, and a step on the return
`00EE` (`f = 0`) returns `false` exactly when the stack pointer is 0; in every other
case the step returns `true`. -/
theorem chip8_cycle_stack_errors (vm : chip8_vm) (keys vtick rnd f nnn : Nat)
    (hfam : f = 0 ∨ f = 2) (hnnn : nnn < 4096) (hsp : vm.sp ≤ 16)
    (hf : fetch vm = some (match f with
      | 0 => 0x00EE
      | _ => instr_addr 2 nnn)) :
    ((∃ vm1, chip8_cycle vm keys vtick rnd = .fail vm1) ↔
      (match f with
        | 0 => vm.sp = 0
        | _ => vm.sp = 16)) ∧
    ((∃ vm1 snd, chip8_cycle vm keys vtick rnd = .ok vm1 snd) ↔
      (match f with
        | 0 => vm.sp ≠ 0
        | _ => vm.sp ≠ 16)) := by
  rcases hfam with h | h <;> subst h <;> simp only at hf ⊢
  · by_cases h0 : vm.sp = 0
    · have e := chip8_cycle_return_empty vm keys vtick rnd h0 hf
      refine ⟨⟨fun _ => h0, fun _ => ⟨_, e⟩⟩, ⟨?_, fun hne => absurd h0 hne⟩⟩
      rintro ⟨vm1, snd, e1⟩
      rw [e] at e1
      cases e1
    · obtain ⟨vm1, snd, e, -⟩ :=
        chip8_cycle_return_step vm keys vtick rnd (by omega) hsp hf
      refine ⟨⟨?_, fun h => absurd h h0⟩, ⟨fun _ => h0, fun _ => ⟨vm1, snd, e⟩⟩⟩
      rintro ⟨vm2, e2⟩
      rw [e] at e2
      cases e2
  · by_cases h16 : vm.sp = 16
    · have e := chip8_cycle_call_full vm keys vtick rnd nnn hnnn (by omega) hf
      refine ⟨⟨fun _ => h16, fun _ => ⟨_, e⟩⟩, ⟨?_, fun hne => absurd h16 hne⟩⟩
      rintro ⟨vm1, snd, e1⟩
      rw [e] at e1
      cases e1
    · obtain ⟨vm1, snd, e, -⟩ :=
        chip8_cycle_call_step vm keys vtick rnd nnn hnnn (by omega) hf
      refine ⟨⟨?_, fun h => absurd h h16⟩, ⟨fun _ => h16, fun _ => ⟨vm1, snd, e⟩⟩⟩
      rintro ⟨vm2, e2⟩
      rw [e] at e2
      cases e2

/-- Witness of C18: the return `00EE` with an empty stack, which fails. -/
theorem chip8_cycle_stack_errors_witness :
    ((0 = 0 ∨ 0 = 2) ∧ 0 < 4096 ∧ return_input.sp ≤ 16 ∧
      fetch return_input = some 0x00EE) ∧
    (((∃ vm1, chip8_cycle return_input 0 0 0 = .fail vm1) ↔ return_input.sp = 0) ∧
     ((∃ vm1 snd, chip8_cycle return_input 0 0 0 = .ok vm1 snd) ↔
       return_input.sp ≠ 0)) :=
  ⟨⟨by decide, by decide, by decide, by decide⟩,
   chip8_cycle_stack_errors return_input 0 0 0 0 0 (by decide) (by decide) (by decide)
     (by decide)⟩

/-- C19: with a stack pointer `s < 16`, a call `2nnn` at the program counter `pc`
and a return `00EE` stored at the address `nnn`, two successive steps both return
`true`; the first leaves the program counter at `nnn` and the stack pointer at
`s + 1`, the second leaves the program counter at `pc + 2` and the stack pointer
at `s`. -/
theorem chip8_cycle_call_return (vm : chip8_vm) (keys vtick rnd keys2 vtick2 rnd2 nnn : Nat)
    (hnnn : nnn < 4096) (hsp : vm.sp < 16)
    (hf : fetch vm = some (instr_addr 2 nnn))
    (hret : fetch (chip8_set_pc vm nnn) = some 0x00EE) :
    ∃ vm1 s1 vm2 s2,
      chip8_cycle vm keys vtick rnd = .ok vm1 s1 ∧
      vm1.pc = nnn ∧ vm1.sp = vm.sp + 1 ∧
      chip8_cycle vm1 keys2 vtick2 rnd2 = .ok vm2 s2 ∧
      vm2.pc = vm.pc + 2 ∧ vm2.sp = vm.sp := by
  obtain ⟨vm1, s1, e1, hpc1, hsp1, hstack1, hram1⟩ :=
    chip8_cycle_call_step vm keys vtick rnd nnn hnnn hsp hf
  have f1 : fetch vm1 = some 0x00EE := by
    rw [fetch_congr vm1 (chip8_set_pc vm nnn) hpc1 hram1]
    exact hret
  obtain ⟨vm2, s2, e2, hpc2, hsp2, -⟩ :=
    chip8_cycle_return_step vm1 keys2 vtick2 rnd2 (by omega) (by omega) f1
  refine ⟨vm1, s1, vm2, s2, e1, hpc1, hsp1, e2, ?_, ?_⟩
  · rw [hpc2, hstack1, hsp1, Nat.add_sub_cancel, upd_same]
  · rw [hsp2, hsp1, Nat.add_sub_cancel]

/-- Witness of C19: the call `2204` at 0x200 with `00EE` stored at 0x204. -/
theorem chip8_cycle_call_return_witness :
    (0x204 < 4096 ∧ call_input.sp < 16 ∧ fetch call_input = some (instr_addr 2 0x204) ∧
      fetch (chip8_set_pc call_input 0x204) = some 0x00EE) ∧
    ∃ vm1 s1 vm2 s2,
      chip8_cycle call_input 0 0 0 = .ok vm1 s1 ∧
      vm1.pc = 0x204 ∧ vm1.sp = call_input.sp + 1 ∧
      chip8_cycle vm1 0 0 0 = .ok vm2 s2 ∧
      vm2.pc = call_input.pc + 2 ∧ vm2.sp = call_input.sp :=
  ⟨⟨by decide, by decide, by decide, by decide⟩,
   chip8_cycle_call_return call_input 0 0 0 0 0 0 0x204 (by decide) (by decide)
     (by decide) (by decide)⟩

/-- The loop of `case 0x0055` inside `ram`: it ends, and it leaves `V[a - I]` in
each cell `a` that it visits and the old content in every other cell. -/
theorem store_loop_apply (V : Nat → Nat) (I : Nat) (count i : Nat) (ram : Nat → Nat)
    (h : I + i + count ≤ RAM_SIZE) :
    ∃ ram1, store_loop V I count i ram = some ram1 ∧
      ∀ a, ram1 a = if I + i ≤ a ∧ a < I + i + count then V (a - I) else ram a := by
  induction count generalizing i ram with
  | zero =>
    refine ⟨ram, rfl, ?_⟩
    intro a
    have hn : ¬ (I + i ≤ a ∧ a < I + i + 0) := by omega
    rw [if_neg hn]
  | succ c ih =>
    have hb : I + i < RAM_SIZE := by omega
    obtain ⟨ram1, e, hr⟩ := ih (i + 1) (upd ram (I + i) (V i)) (by omega)
    refine ⟨ram1, ?_, ?_⟩
    · rw [store_loop, if_pos hb]
      exact e
    · intro a
      rw [hr a]
      by_cases h1 : a = I + i
      · subst h1
        have hn : ¬ (I + (i + 1) ≤ I + i ∧ I + i < I + (i + 1) + c) := by omega
        have hp : I + i ≤ I + i ∧ I + i < I + i + (c + 1) := by omega
        rw [if_neg hn, if_pos hp, upd_same, Nat.add_sub_cancel_left]
      · by_cases h2 : I + (i + 1) ≤ a ∧ a < I + (i + 1) + c
        · have hp : I + i ≤ a ∧ a < I + i + (c + 1) := by omega
          rw [if_pos h2, if_pos hp]
        · have hn : ¬ (I + i ≤ a ∧ a < I + i + (c + 1)) := by omega
          rw [if_neg h2, if_neg hn, upd_other _ _ _ _ h1]

/-! ## Theorems: memory transfer -/

/-- C20: with the index register `I` and `I + x < 4096`, a step on the block store
`Fx55` returns `true` and leaves `ram[I + i] = V[i]` for every `i` in 0..x, every
other cell of `ram` and every register as it was, and the index register at
`I + x + 1`. -/
theorem chip8_cycle_store (vm : chip8_vm) (keys vtick rnd x : Nat)
    (hx : x < 16) (hI : vm.I + x < 4096)
    (hf : fetch vm = some (instr_imm 0xF x 0x55)) :
    ∃ vm1 snd, chip8_cycle vm keys vtick rnd = .ok vm1 snd ∧
      (∀ i, i ≤ x → vm1.ram (vm.I + i) = vm.V i) ∧
      (∀ a, (a < vm.I ∨ vm.I + x < a) → vm1.ram a = vm.ram a) ∧
      vm1.V = vm.V ∧
      vm1.I = vm.I + x + 1 := by
  obtain ⟨h1, h2, h3⟩ := instr_imm_fields 0xF x 0x55 (by omega) hx (by omega)
  obtain ⟨ram1, el, hr⟩ := store_loop_apply vm.V vm.I (x + 1) 0 vm.ram
    (by simp only [RAM_SIZE]; omega)
  have he : exec { vm with pc := u16 (vm.pc + 2) } (instr_imm 0xF x 0x55)
      ((instr_imm 0xF x 0x55 &&& 0x0F00) >>> 8)
      ((instr_imm 0xF x 0x55 &&& 0x00F0) >>> 4) rnd
      = .brk { vm with pc := u16 (vm.pc + 2), ram := ram1,
                       I := u16 (vm.I + (x + 1)) } := by
    rw [h2]
    unfold exec
    rw [h1]
    simp only [h3, el]
  obtain ⟨vm1, snd, e, hV, hram, -, hI1, -⟩ := chip8_cycle_ok vm _ keys vtick rnd _ hf he
  refine ⟨vm1, snd, e, ?_, ?_, hV, ?_⟩
  · intro i hi
    have hp : vm.I + 0 ≤ vm.I + i ∧ vm.I + i < vm.I + 0 + (x + 1) := by omega
    rw [hram]
    simp only [hr, if_pos hp, Nat.add_sub_cancel_left]
  · intro a ha
    have hn : ¬ (vm.I + 0 ≤ a ∧ a < vm.I + 0 + (x + 1)) := by omega
    rw [hram]
    simp only [hr, if_neg hn]
  · rw [hI1]
    simp only [u16]
    omega

/-- Witness of C20: the last instruction of `test_prog1`, `F355`, with I = 0x300
and V0..V3 = 0x63, 0x2B, 0x2C, 0x2D. -/
theorem chip8_cycle_store_witness :
    (3 < 16 ∧ store_input.I + 3 < 4096 ∧
      fetch store_input = some (instr_imm 0xF 3 0x55)) ∧
    ∃ vm1 snd, chip8_cycle store_input 0 0 0 = .ok vm1 snd ∧
      (∀ i, i ≤ 3 → vm1.ram (store_input.I + i) = store_input.V i) ∧
      (∀ a, (a < store_input.I ∨ store_input.I + 3 < a) →
        vm1.ram a = store_input.ram a) ∧
      vm1.V = store_input.V ∧
      vm1.I = store_input.I + 3 + 1 :=
  ⟨⟨by decide, by decide, by decide⟩,
   chip8_cycle_store store_input 0 0 0 3 (by decide) (by decide) (by decide)⟩

/-- The loop of `case 0x0065` inside `ram`: it ends, and it leaves the low byte of
`ram[I + j]` in each register `j` that it visits and the old value in every other
register. -/
theorem load_loop_apply (ram : Nat → Nat) (I : Nat) (count i : Nat) (V : Nat → Nat)
    (h : I + i + count ≤ RAM_SIZE) :
    ∃ V1, load_loop ram I count i V = some V1 ∧
      ∀ j, V1 j = if i ≤ j ∧ j < i + count then u8 (ram (I + j)) else V j := by
  induction count generalizing i V with
  | zero =>
    refine ⟨V, rfl, ?_⟩
    intro j
    have hn : ¬ (i ≤ j ∧ j < i + 0) := by omega
    rw [if_neg hn]
  | succ c ih =>
    have hb : I + i < RAM_SIZE := by omega
    obtain ⟨V1, e, hr⟩ := ih (i + 1) (upd V i (u8 (ram (I + i)))) (by omega)
    refine ⟨V1, ?_, ?_⟩
    · rw [load_loop, if_pos hb]
      exact e
    · intro j
      rw [hr j]
      by_cases h1 : j = i
      · subst h1
        have hn : ¬ (j + 1 ≤ j ∧ j < j + 1 + c) := by omega
        have hp : j ≤ j ∧ j < j + (c + 1) := by omega
        rw [if_neg hn, if_pos hp, upd_same]
      · by_cases h2 : i + 1 ≤ j ∧ j < i + 1 + c
        · have hp : i ≤ j ∧ j < i + (c + 1) := by omega
          rw [if_pos h2, if_pos hp]
        · have hn : ¬ (i ≤ j ∧ j < i + (c + 1)) := by omega
          rw [if_neg h2, if_neg hn, upd_other _ _ _ _ h1]

/-- C21: with the index register `I` and `I + x < 4096`, a step on the block load
`Fx65` returns `true` and leaves in `V[i]`, for every `i` in 0..x, the byte that
`chip8_get_ram` reads at `I + i`; every register above `x` and all of `ram` are as
they were, and the index register is at `I + x + 1`. -/
theorem chip8_cycle_load_regs (vm : chip8_vm) (keys vtick rnd x : Nat)
    (hx : x < 16) (hI : vm.I + x < 4096)
    (hf : fetch vm = some (instr_imm 0xF x 0x65)) :
    ∃ vm1 snd, chip8_cycle vm keys vtick rnd = .ok vm1 snd ∧
      (∀ i, i ≤ x → vm1.V i = chip8_get_ram vm (vm.I + i)) ∧
      (∀ i, x < i → vm1.V i = vm.V i) ∧
      vm1.ram = vm.ram ∧
      vm1.I = vm.I + x + 1 := by
  obtain ⟨h1, h2, h3⟩ := instr_imm_fields 0xF x 0x65 (by omega) hx (by omega)
  obtain ⟨V1, el, hr⟩ := load_loop_apply vm.ram vm.I (x + 1) 0 vm.V
    (by simp only [RAM_SIZE]; omega)
  have he : exec { vm with pc := u16 (vm.pc + 2) } (instr_imm 0xF x 0x65)
      ((instr_imm 0xF x 0x65 &&& 0x0F00) >>> 8)
      ((instr_imm 0xF x 0x65 &&& 0x00F0) >>> 4) rnd
      = .brk { vm with pc := u16 (vm.pc + 2), V := V1,
                       I := u16 (vm.I + (x + 1)) } := by
    rw [h2]
    unfold exec
    rw [h1]
    simp only [h3, el]
  obtain ⟨vm1, snd, e, hV, hram, -, hI1, -⟩ := chip8_cycle_ok vm _ keys vtick rnd _ hf he
  refine ⟨vm1, snd, e, ?_, ?_, hram, ?_⟩
  · intro i hi
    have hp : 0 ≤ i ∧ i < 0 + (x + 1) := by omega
    have ha : vm.I + i < RAM_SIZE := by simp only [RAM_SIZE]; omega
    rw [hV]
    simp only [hr, if_pos hp, chip8_get_ram, if_pos ha]
  · intro i hi
    have hn : ¬ (0 ≤ i ∧ i < 0 + (x + 1)) := by omega
    rw [hV]
    simp only [hr, if_neg hn]
  · rw [hI1]
    simp only [u16]
    omega

/-- Witness of C21: `F165` with I = 0x202, where the bytes 0x63, 0x2B lie. -/
theorem chip8_cycle_load_regs_witness :
    (1 < 16 ∧ load_regs_input.I + 1 < 4096 ∧
      fetch load_regs_input = some (instr_imm 0xF 1 0x65)) ∧
    ∃ vm1 snd, chip8_cycle load_regs_input 0 0 0 = .ok vm1 snd ∧
      (∀ i, i ≤ 1 → vm1.V i = chip8_get_ram load_regs_input (load_regs_input.I + i)) ∧
      (∀ i, 1 < i → vm1.V i = load_regs_input.V i) ∧
      vm1.ram = load_regs_input.ram ∧
      vm1.I = load_regs_input.I + 1 + 1 :=
  ⟨⟨by decide, by decide, by decide⟩,
   chip8_cycle_load_regs load_regs_input 0 0 0 1 (by decide) (by decide) (by decide)⟩

/-! ## Theorems: illegal instructions, debug accessors, reset and display -/

/-- In the `0x0000` family every word other than `00EE` makes the step return
`false`. -/
theorem chip8_cycle_illegal_zero (vm : chip8_vm) (keys vtick rnd op : Nat)
    (h0 : op &&& 0xF000 = 0x0000) (hne : op ≠ 0x00EE) (hf : fetch vm = some op) :
    chip8_cycle vm keys vtick rnd = .fail { vm with pc := u16 (vm.pc + 2) } := by
  apply chip8_cycle_ret_false vm _ keys vtick rnd _ hf
  unfold exec
  rw [h0]
  simp only [if_neg hne]

/-- In the `0x8000` family every low nibble outside {0,...,7,E} makes the step return
`false`. -/
theorem chip8_cycle_illegal_alu (vm : chip8_vm) (keys vtick rnd x y n : Nat)
    (hx : x < 16) (hy : y < 16)
    (hn : n = 8 ∨ n = 9 ∨ n = 0xA ∨ n = 0xB ∨ n = 0xC ∨ n = 0xD ∨ n = 0xF)
    (hf : fetch vm = some (instr 8 x y n)) :
    chip8_cycle vm keys vtick rnd = .fail { vm with pc := u16 (vm.pc + 2) } := by
  obtain ⟨h1, h2, h3, h4⟩ := instr_fields 8 x y n (by omega) hx hy (by omega)
  apply chip8_cycle_ret_false vm _ keys vtick rnd _ hf
  rw [h2, h3]
  unfold exec
  rw [h1]
  show alu _ _ x y = _
  unfold alu
  rw [h4]
  rcases hn with h | h | h | h | h | h | h <;> subst h <;> rfl

/-- C22, evaluated at failing inputs: the step on `E000`, whose low byte is neither
0x9E nor 0xA1, returns `true`, and so does the step on `F0FF`, whose low byte is not
in the table of the `F` family. -/
theorem chip8_cycle_illegal_accepted :
    fetch illegal_key_input = some (instr_imm 0xE 0 0x00) ∧
    (chip8_cycle illegal_key_input 0 0 0).returned = some true ∧
    fetch illegal_misc_input = some (instr_imm 0xF 0 0xFF) ∧
    (chip8_cycle illegal_misc_input 0 0 0).returned = some true := by
  decide

/-- C23: for a register index `i` in 0..15 and a byte `v`, `chip8_get_vr` after
`chip8_set_vr(i, v)` returns `v`; for an address `a < 4096` and a byte `v`,
`chip8_get_ram` after `chip8_set_ram(a, v)` returns `v`. -/
theorem debug_round_trip (vm : chip8_vm) (i : Int) (a v : Nat)
    (hi0 : 0 ≤ i) (hi : i < 16) (ha : a < 4096) (hv : v < 256) :
    chip8_get_vr (chip8_set_vr vm i v) i = v ∧
    chip8_get_ram (chip8_set_ram vm a v) a = v := by
  have hr : i ≥ 0 ∧ i < 16 := ⟨hi0, hi⟩
  have har : a < RAM_SIZE := ha
  constructor
  · simp only [chip8_get_vr, chip8_set_vr, if_pos hr, upd_same]
  · simp only [chip8_get_ram, chip8_set_ram, if_pos har, upd_same, u8]
    omega

/-- Witness of C23: register 15 and address 0x300 with the byte 42. -/
theorem debug_round_trip_witness :
    ((0 : Int) ≤ 15 ∧ (15 : Int) < 16 ∧ 0x300 < 4096 ∧ 42 < 256) ∧
    (chip8_get_vr (chip8_set_vr zero_vm 15 42) 15 = 42 ∧
     chip8_get_ram (chip8_set_ram zero_vm 0x300 42) 0x300 = 42) :=
  ⟨⟨by decide, by decide, by decide, by decide⟩,
   debug_round_trip zero_vm 15 0x300 42 (by decide) (by decide) (by decide) (by decide)⟩

/-- C24: for a register index `i < 0` or `i ≥ 16`, `chip8_get_vr` returns 0 and
`chip8_set_vr` leaves the whole machine as it was; for an address `a ≥ 4096`,
`chip8_get_ram` returns 0 and `chip8_set_ram` leaves the whole machine as it was. -/
theorem debug_out_of_range (vm : chip8_vm) (i : Int) (a v : Nat)
    (hi : i < 0 ∨ 16 ≤ i) (ha : 4096 ≤ a) :
    chip8_get_vr vm i = 0 ∧ chip8_set_vr vm i v = vm ∧
    chip8_get_ram vm a = 0 ∧ chip8_set_ram vm a v = vm := by
  have hr : ¬ (i ≥ 0 ∧ i < 16) := by omega
  have har : ¬ a < RAM_SIZE := by simp only [RAM_SIZE]; omega
  refine ⟨?_, ?_, ?_, ?_⟩
  · simp only [chip8_get_vr, if_neg hr]
  · simp only [chip8_set_vr, if_neg hr]
  · simp only [chip8_get_ram, if_neg har]
  · simp only [chip8_set_ram, if_neg har]

/-- Witness of C24: the register index -1 and the address 4096. -/
theorem debug_out_of_range_witness :
    (((-1 : Int) < 0 ∨ (16 : Int) ≤ -1) ∧ 4096 ≤ 4096) ∧
    (chip8_get_vr draw_input (-1) = 0 ∧ chip8_set_vr draw_input (-1) 9 = draw_input ∧
     chip8_get_ram draw_input 4096 = 0 ∧ chip8_set_ram draw_input 4096 9 = draw_input) :=
  ⟨⟨by decide, by decide⟩,
   debug_out_of_range draw_input (-1) 4096 9 (by decide) (by decide)⟩

/-- The registers V0..VF are not touched by `chip8_load`. -/
theorem chip8_load_registers (vm : chip8_vm) (p : List Nat) :
    (chip8_load vm p).2.V = vm.V := by
  unfold chip8_load
  split <;> rfl

/-- C25, evaluated at a failing input: a machine with V0 = 5 is loaded with the
two-byte program `12 00`; `chip8_load` returns `true` and V0 still reads 5. -/
theorem chip8_load_keeps_registers :
    chip8_get_vr used_regs_input 0 = 5 ∧
    (chip8_load used_regs_input [0x12, 0x00]).1 = true ∧
    chip8_get_vr (chip8_load used_regs_input [0x12, 0x00]).2 0 = 5 := by
  decide

/-- The step on a draw instruction `Dxyn` returns `true` and leaves the framebuffer
and the registers as they were. -/
theorem chip8_cycle_draw_step (vm : chip8_vm) (keys vtick rnd x y n : Nat)
    (hx : x < 16) (hy : y < 16) (hn : n < 16)
    (hf : fetch vm = some (instr 0xD x y n)) :
    ∃ vm1 snd, chip8_cycle vm keys vtick rnd = .ok vm1 snd ∧
      vm1.fb = vm.fb ∧ vm1.V = vm.V := by
  obtain ⟨h1, -⟩ := instr_fields 0xD x y n (by omega) hx hy hn
  have he : exec { vm with pc := u16 (vm.pc + 2) } (instr 0xD x y n)
      ((instr 0xD x y n &&& 0x0F00) >>> 8) ((instr 0xD x y n &&& 0x00F0) >>> 4) rnd
      = .brk { vm with pc := u16 (vm.pc + 2) } := by
    unfold exec
    rw [h1]
  obtain ⟨vm1, snd, e, hV, -, -, -, -, -, -, hfb⟩ :=
    chip8_cycle_ok vm _ keys vtick rnd _ hf he
  exact ⟨vm1, snd, e, hfb, hV⟩

/-- C26, evaluated at a failing input: on `D001` with V0 = 0, VF = 1, I = 0 and an
empty framebuffer, the sprite byte at I is 0xf0, whose most significant bit is set,
so cell (row 0, column 0) is to become 1 and VF, no pixel being turned off, 0; the
step returns `true` and leaves that cell at 0 and VF at 1. -/
theorem chip8_cycle_draw_nothing :
    fetch draw_input = some (instr 0xD 0 0 1) ∧
    draw_input.I = 0 ∧ draw_input.V 0 = 0 ∧
    chip8_get_ram draw_input 0 = 0xf0 ∧
    draw_input.fb 0 0 = 0 ∧
    (chip8_cycle draw_input 0 0 0).state.map (fun s => (s.fb 0 0, s.V 0xF))
      = some (0, 1) := by
  decide

/-- C27, evaluated at a failing input: with every framebuffer cell at 1, the step on
`00E0` returns `false` and leaves cell (0, 0) at 1. -/
theorem chip8_cycle_clear_fails :
    fetch clear_input = some 0x00E0 ∧
    (chip8_cycle clear_input 0 0 0).returned = some false ∧
    (chip8_cycle clear_input 0 0 0).machine.map (fun s => s.fb 0 0) = some 1 := by
  decide

/-! ## Lemmas: what every path through the `switch` preserves -/

/-- A `return false` inside the `0x8000` family leaves the machine as it was. -/
theorem alu_ret_false (vm vm2 : chip8_vm) (op x y : Nat)
    (h : alu vm op x y = .ret_false vm2) : vm2 = vm := by
  unfold alu at h
  split at h
  all_goals try simp only [alu_case7] at h
  all_goals first
    | (injection h with h; exact h.symm)
    | cases h

/-- A `return false` inside the `switch` leaves the machine as it was on entry. -/
theorem exec_ret_false (vm vm2 : chip8_vm) (op x y rnd : Nat)
    (h : exec vm op x y rnd = .ret_false vm2) : vm2 = vm := by
  unfold exec at h
  split at h
  all_goals try dsimp only at h
  all_goals repeat' split at h
  all_goals first
    | exact alu_ret_false _ _ _ _ _ h
    | (injection h with h; exact h.symm)
    | cases h

/-- The `0x8000` family writes registers only. -/
theorem alu_brk_frame (vm vm2 : chip8_vm) (op x y : Nat)
    (h : alu vm op x y = .brk vm2) :
    vm2.sp = vm.sp ∧ vm2.pc = vm.pc ∧ vm2.ram = vm.ram ∧ vm2.I = vm.I ∧
    vm2.stack = vm.stack := by
  unfold alu at h
  split at h
  all_goals try simp only [alu_case7] at h
  all_goals first
    | (injection h with h; subst h; exact ⟨rfl, rfl, rfl, rfl, rfl⟩)
    | cases h

/-- The `switch` keeps the stack pointer within 0..16. -/
theorem exec_brk_sp (vm vm2 : chip8_vm) (op x y rnd : Nat) (hsp : vm.sp ≤ 16)
    (h : exec vm op x y rnd = .brk vm2) : vm2.sp ≤ 16 := by
  unfold exec at h
  split at h
  all_goals try dsimp only at h
  all_goals repeat' split at h
  all_goals first
    | exact (alu_brk_frame _ _ _ _ _ h).1 ▸ hsp
    | (injection h with h; subst h; first
        | exact hsp
        | (simp only [STACK_SLOTS] at *; omega))
    | cases h

/-- Outside the families `0x0000`, `0x1000` and `0x2000` the `switch` leaves the
program counter where it was on entry or 2 further. -/
theorem exec_brk_pc (vm vm2 : chip8_vm) (op x y rnd : Nat)
    (h0 : op &&& 0xF000 ≠ 0x0000) (h1 : op &&& 0xF000 ≠ 0x1000)
    (h2 : op &&& 0xF000 ≠ 0x2000)
    (h : exec vm op x y rnd = .brk vm2) :
    vm2.pc = vm.pc ∨ vm2.pc = u16 (vm.pc + 2) := by
  unfold exec at h
  split at h
  all_goals try dsimp only at h
  all_goals repeat' split at h
  all_goals first
    | exact Or.inl (alu_brk_frame _ _ _ _ _ h).2.1
    | (injection h with h; subst h; first
        | exact Or.inl rfl
        | exact Or.inr rfl)
    | contradiction

/-- In the families `0x1000` and `0x2000` the `switch`, when left through `break`,
leaves the program counter at the address field of the word. -/
theorem exec_brk_jump (vm vm2 : chip8_vm) (op x y rnd : Nat)
    (h12 : op &&& 0xF000 = 0x1000 ∨ op &&& 0xF000 = 0x2000)
    (h : exec vm op x y rnd = .brk vm2) :
    vm2.pc = op &&& 0x0FFF := by
  unfold exec at h
  rcases h12 with h1 | h1
  · rw [h1] at h
    dsimp only at h
    injection h with h
    subst h
    rfl
  · rw [h1] at h
    dsimp only at h
    split at h
    · injection h with h
      subst h
      rfl
    · cases h

/-- A step that returned `true` fetched a word, left the `switch` through `break`,
and then changed the timers only. -/
theorem chip8_cycle_ok_inv (vm vm1 : chip8_vm) (keys vtick rnd : Nat) (snd : Bool)
    (h : chip8_cycle vm keys vtick rnd = .ok vm1 snd) :
    ∃ op vm2, fetch vm = some op ∧
      exec { vm with pc := u16 (vm.pc + 2) } op ((op &&& 0x0F00) >>> 8)
        ((op &&& 0x00F0) >>> 4) rnd = .brk vm2 ∧
      vm1.pc = vm2.pc ∧ vm1.sp = vm2.sp ∧ vm1.V = vm2.V := by
  unfold chip8_cycle at h
  split at h
  · cases h
  · rename_i op hop
    dsimp only at h
    split at h
    · rename_i vm2 he
      obtain ⟨vm3, s3, e3, hV, -, hpc, -, hsp, -⟩ := tick_timers_ok vm2
      rw [e3] at h
      injection h with h hs
      subst h
      exact ⟨op, vm2, hop, he, hpc, hsp, hV⟩
    · cases h
    · cases h

/-- A step that returned `false` fetched a word and left the `switch` through
`return false`. -/
theorem chip8_cycle_fail_inv (vm vm1 : chip8_vm) (keys vtick rnd : Nat)
    (h : chip8_cycle vm keys vtick rnd = .fail vm1) :
    ∃ op, fetch vm = some op ∧
      exec { vm with pc := u16 (vm.pc + 2) } op ((op &&& 0x0F00) >>> 8)
        ((op &&& 0x00F0) >>> 4) rnd = .ret_false vm1 := by
  unfold chip8_cycle at h
  split at h
  · cases h
  · rename_i op hop
    dsimp only at h
    split at h
    · rename_i vm2 he
      obtain ⟨vm3, s3, e3, -⟩ := tick_timers_ok vm2
      rw [e3] at h
      cases h
    · rename_i vm2 he
      injection h with h
      subst h
      exact ⟨op, hop, he⟩
    · cases h

/-! ## Theorems: failure and invariants -/

/-- C28: whenever `chip8_cycle` returns `false`, every register, every cell of `ram`,
the index register, the stack, the stack pointer, both timers, the `keys` array and
the framebuffer are as they were before the step; the program counter alone has
moved, by 2. -/
theorem chip8_cycle_fail_atomic (vm vm1 : chip8_vm) (keys vtick rnd : Nat)
    (h : chip8_cycle vm keys vtick rnd = .fail vm1) :
    vm1.V = vm.V ∧ vm1.ram = vm.ram ∧ vm1.I = vm.I ∧ vm1.stack = vm.stack ∧
    vm1.sp = vm.sp ∧ vm1.delay_timer = vm.delay_timer ∧
    vm1.sound_timer = vm.sound_timer ∧ vm1.keys = vm.keys ∧ vm1.fb = vm.fb ∧
    vm1.pc = u16 (vm.pc + 2) := by
  obtain ⟨op, -, he⟩ := chip8_cycle_fail_inv vm vm1 keys vtick rnd h
  have e := exec_ret_false _ _ _ _ _ _ he
  subst e
  exact ⟨rfl, rfl, rfl, rfl, rfl, rfl, rfl, rfl, rfl, rfl⟩

/-- Witness of C28: the return `00EE` with an empty stack, which fails. -/
theorem chip8_cycle_fail_atomic_witness :
    chip8_cycle return_input 0 0 0
      = .fail { return_input with pc := u16 (return_input.pc + 2) } ∧
    ({ return_input with pc := u16 (return_input.pc + 2) }.V = return_input.V ∧
     { return_input with pc := u16 (return_input.pc + 2) }.ram = return_input.ram ∧
     { return_input with pc := u16 (return_input.pc + 2) }.I = return_input.I ∧
     { return_input with pc := u16 (return_input.pc + 2) }.stack = return_input.stack ∧
     { return_input with pc := u16 (return_input.pc + 2) }.sp = return_input.sp ∧
     { return_input with pc := u16 (return_input.pc + 2) }.delay_timer
       = return_input.delay_timer ∧
     { return_input with pc := u16 (return_input.pc + 2) }.sound_timer
       = return_input.sound_timer ∧
     { return_input with pc := u16 (return_input.pc + 2) }.keys = return_input.keys ∧
     { return_input with pc := u16 (return_input.pc + 2) }.fb = return_input.fb ∧
     { return_input with pc := u16 (return_input.pc + 2) }.pc
       = u16 (return_input.pc + 2)) :=
  ⟨chip8_cycle_return_empty return_input 0 0 0 (by decide) (by decide),
   chip8_cycle_fail_atomic return_input _ 0 0 0
     (chip8_cycle_return_empty return_input 0 0 0 (by decide) (by decide))⟩

/-- From a machine whose stack pointer is within 0..16, the machine left by
`chip8_load` (successful or not), by a call of `chip8_cycle` that returned (`true`
or `false`, with every access inside its array) and by each of the setters `chip8_set_pc`,
`chip8_set_i`, `chip8_set_vr`, `chip8_set_ram` again has its stack pointer within
0..16; the getters leave the machine alone. -/
theorem sp_invariant (vm : chip8_vm) (hsp : vm.sp ≤ 16) :
    (∀ p, 0 ≤ (chip8_load vm p).2.sp ∧ (chip8_load vm p).2.sp ≤ 16) ∧
    (∀ keys vtick rnd s, (chip8_cycle vm keys vtick rnd).machine = some s →
      0 ≤ s.sp ∧ s.sp ≤ 16) ∧
    (∀ new_pc, (chip8_set_pc vm new_pc).sp ≤ 16) ∧
    (∀ new_i, (chip8_set_i vm new_i).sp ≤ 16) ∧
    (∀ i v, (chip8_set_vr vm i v).sp ≤ 16) ∧
    (∀ a v, (chip8_set_ram vm a v).sp ≤ 16) := by
  refine ⟨?_, ?_, fun _ => hsp, fun _ => hsp, ?_, ?_⟩
  · intro p
    refine ⟨Nat.zero_le _, ?_⟩
    unfold chip8_load
    split
    · exact hsp
    · exact Nat.zero_le 16
  · intro keys vtick rnd s hs
    refine ⟨Nat.zero_le _, ?_⟩
    cases hc : chip8_cycle vm keys vtick rnd with
    | ok vm1 snd =>
      rw [hc] at hs
      injection hs with hs
      subst hs
      obtain ⟨op, vm2, -, he, -, hsp1, -⟩ := chip8_cycle_ok_inv vm vm1 keys vtick rnd snd hc
      rw [hsp1]
      exact exec_brk_sp { vm with pc := u16 (vm.pc + 2) } vm2 _ _ _ _ hsp he
    | fail vm1 =>
      rw [hc] at hs
      injection hs with hs
      subst hs
      rw [(chip8_cycle_fail_atomic vm vm1 keys vtick rnd hc).2.2.2.2.1]
      exact hsp
    | out_of_bounds =>
      rw [hc] at hs
      cases hs
  · intro i v
    unfold chip8_set_vr
    split <;> exact hsp
  · intro a v
    unfold chip8_set_ram
    split <;> exact hsp

/-- The lemma `sp_invariant` at the machine about to run the call `2204`, with an
empty stack. -/
theorem sp_invariant_witness :
    call_input.sp ≤ 16 ∧
    ((∀ p, 0 ≤ (chip8_load call_input p).2.sp ∧ (chip8_load call_input p).2.sp ≤ 16) ∧
    (∀ keys vtick rnd s, (chip8_cycle call_input keys vtick rnd).machine = some s →
      0 ≤ s.sp ∧ s.sp ≤ 16) ∧
    (∀ new_pc, (chip8_set_pc call_input new_pc).sp ≤ 16) ∧
    (∀ new_i, (chip8_set_i call_input new_i).sp ≤ 16) ∧
    (∀ i v, (chip8_set_vr call_input i v).sp ≤ 16) ∧
    (∀ a v, (chip8_set_ram call_input a v).sp ≤ 16)) :=
  ⟨by decide, sp_invariant call_input (by decide)⟩

/-- C30, refuted at six inputs, each with an even program counter below 4096 and a
step that returns `true`: the jump `1201` and the call `2201` leave the program
counter at the odd address 0x201; `6000` in the last two cells of `ram` leaves it at
0x1000 = 4096, and so does the taken skip `3000` at 0xFFC; the return `00EE` leaves it
at the popped value 0x1001; and `F055` with I = 0x1018 stores V0 = 0x33 outside `ram`,
where `chip8_cycle` stops and where the struct holds `pc`, which the step then leaves
at the odd value 0x33. -/
theorem chip8_cycle_pc_escapes :
    (odd_jump_input.pc % 2 = 0 ∧ odd_jump_input.pc < 4096 ∧
      (chip8_cycle odd_jump_input 0 0 0).state.map (fun s => s.pc) = some 0x201) ∧
    (odd_call_input.pc % 2 = 0 ∧ odd_call_input.pc < 4096 ∧
      (chip8_cycle odd_call_input 0 0 0).state.map (fun s => s.pc) = some 0x201) ∧
    (last_cell_input.pc % 2 = 0 ∧ last_cell_input.pc < 4096 ∧
      (chip8_cycle last_cell_input 0 0 0).state.map (fun s => s.pc) = some 0x1000) ∧
    (skip_end_input.pc % 2 = 0 ∧ skip_end_input.pc < 4096 ∧ skip_end_input.pc = 0xFFC ∧
      (chip8_cycle skip_end_input 0 0 0).state.map (fun s => s.pc) = some 0x1000) ∧
    (popped_input.pc % 2 = 0 ∧ popped_input.pc < 4096 ∧
      (chip8_cycle popped_input 0 0 0).state.map (fun s => s.pc) = some 0x1001) ∧
    (smash_pc_input.pc % 2 = 0 ∧ smash_pc_input.pc < 4096 ∧
      fetch smash_pc_input = some (instr_imm 0xF 0 0x55) ∧
      RAM_SIZE ≤ smash_pc_input.I + 0 ∧ smash_pc_input.I + 0 = CELL_PC ∧
      (chip8_cycle smash_pc_input 0 0 0).returned = none ∧
      (chip8_cycle_layout smash_pc_input 0 0 0).returned = some true ∧
      (chip8_cycle_layout smash_pc_input 0 0 0).state.map (fun s => s.pc) = some 0x33) := by
  decide

/-! ## Lemmas: timers and the `0x8000` family as a whole -/

/-- The statements after the `switch`, in closed form: each timer goes down by one
unless it is 0, and the sound flag tells whether the sound timer was positive. -/
theorem tick_timers_eq (vm : chip8_vm) :
    tick_timers vm =
      .ok { vm with delay_timer := vm.delay_timer - 1,
                    sound_timer := vm.sound_timer - 1 }
          (decide (vm.sound_timer > 0)) := by
  unfold tick_timers
  by_cases hd : vm.delay_timer > 0 <;> by_cases hs : vm.sound_timer > 0
  · simp [hd, hs]
  · have e : vm.sound_timer = 0 := by omega
    simp [hd, e]
  · have e : vm.delay_timer = 0 := by omega
    cases vm
    simp only at e hs
    subst e
    simp [hs]
  · have e : vm.delay_timer = 0 := by omega
    have e2 : vm.sound_timer = 0 := by omega
    cases vm
    simp only at e e2
    subst e
    subst e2
    simp

/-- A step on a word `8xyn` is the inner `switch` followed by the timer statements. -/
theorem chip8_cycle_alu_eq (vm : chip8_vm) (keys vtick rnd x y n : Nat)
    (hx : x < 16) (hy : y < 16) (hn : n < 16)
    (hf : fetch vm = some (instr 8 x y n)) :
    chip8_cycle vm keys vtick rnd =
      match alu { vm with pc := u16 (vm.pc + 2) } (instr 8 x y n) x y with
      | .brk vm2 => tick_timers vm2
      | .ret_false vm2 => .fail vm2
      | .out_of_bounds => .out_of_bounds := by
  obtain ⟨h1, h2, h3, -⟩ := instr_fields 8 x y n (by omega) hx hy hn
  have he : exec { vm with pc := u16 (vm.pc + 2) } (instr 8 x y n)
      ((instr 8 x y n &&& 0x0F00) >>> 8) ((instr 8 x y n &&& 0x00F0) >>> 4) rnd
      = alu { vm with pc := u16 (vm.pc + 2) } (instr 8 x y n) x y := by
    rw [h2, h3]
    unfold exec
    rw [h1]
  simp only [chip8_cycle, hf, he]

/-- The inner `switch` on `8xy6` with `x` and `y` other than 0xF does what
`case 0x0007` does: the two stores into VF are overwritten before VF is read. -/
theorem alu_shr_falls_through (vm : chip8_vm) (x y : Nat) (hx : x < 15) (hy : y < 15) :
    alu vm (instr 8 x y 6) x y = alu_case7 vm x y := by
  have h4 := (instr_fields 8 x y 6 (by omega) (by omega) (by omega) (by omega)).2.2.2
  have hxF : x ≠ 0xF := by omega
  have hyF : y ≠ 0xF := by omega
  have hV : ∀ b c : Nat, upd (upd (upd vm.V 0xF 0) 0xF b) 0xF c = upd vm.V 0xF c := by
    intro b c
    funext a
    by_cases ha : a = 0xF
    · subst ha
      simp only [upd_same]
    · simp only [upd_other _ _ _ _ ha]
  unfold alu
  rw [h4]
  simp only [alu_case7, upd_other _ _ _ _ hxF, upd_other _ _ _ _ hyF, hV]

/-- The inner `switch` on `8xy7` is `case 0x0007`. -/
theorem alu_rsub (vm : chip8_vm) (x y : Nat) (hx : x < 16) (hy : y < 16) :
    alu vm (instr 8 x y 7) x y = alu_case7 vm x y := by
  have h4 := (instr_fields 8 x y 7 (by omega) hx hy (by omega)).2.2.2
  unfold alu
  rw [h4]

/-! ## Theorems: what the code does with its arguments, the shift and the timers -/

/-- C31: for every machine and any two key masks and ticks, with the same value of
`rand()`, the two calls of `chip8_cycle` have the same outcome: the same returned
flag, the same sound flag and the same machine afterwards. -/
theorem chip8_cycle_ignores_keys_and_tick (vm : chip8_vm)
    (keys1 vtick1 keys2 vtick2 rnd : Nat) :
    chip8_cycle vm keys1 vtick1 rnd = chip8_cycle vm keys2 vtick2 rnd ∧
    (chip8_cycle vm keys1 vtick1 rnd).returned
      = (chip8_cycle vm keys2 vtick2 rnd).returned ∧
    (chip8_cycle vm keys1 vtick1 rnd).sound = (chip8_cycle vm keys2 vtick2 rnd).sound ∧
    (chip8_cycle vm keys1 vtick1 rnd).machine
      = (chip8_cycle vm keys2 vtick2 rnd).machine :=
  ⟨rfl, rfl, rfl, rfl⟩

/-- C32: for `x` and `y` in 0..14, take a machine about to run `8xy6` and the same
machine with a memory `ram7` that holds `8xy7` at the program counter instead.  Both
steps return `true` with the same sound flag, and the two machines afterwards are the
same apart from the memory, which each step leaves as it was; in both,
`V[x] = (V[y] - V[x]) mod 256` and VF is 1 when the old `V[y]` is greater than the
old `V[x]` and 0 otherwise. -/
theorem chip8_cycle_shr_is_rsub (vm : chip8_vm) (ram7 : Nat → Nat)
    (keys vtick rnd x y : Nat) (hx : x < 15) (hy : y < 15)
    (h6 : fetch vm = some (instr 8 x y 6))
    (h7 : fetch { vm with ram := ram7 } = some (instr 8 x y 7)) :
    ∃ vm1 snd,
      chip8_cycle vm keys vtick rnd = .ok vm1 snd ∧
      chip8_cycle { vm with ram := ram7 } keys vtick rnd
        = .ok { vm1 with ram := ram7 } snd ∧
      vm1.ram = vm.ram ∧
      (vm1.V x : Int) = ((vm.V y : Int) - (vm.V x : Int)) % 256 ∧
      vm1.V 0xF = (if vm.V y > vm.V x then 1 else 0) := by
  have hxF : x ≠ 0xF := by omega
  have hyF : y ≠ 0xF := by omega
  refine ⟨{ vm with
      pc := u16 (vm.pc + 2),
      V := upd (upd vm.V 0xF (if vm.V y > vm.V x then 1 else 0)) x
        (wrap8 ((vm.V y : Int) - (vm.V x : Int))),
      delay_timer := vm.delay_timer - 1,
      sound_timer := vm.sound_timer - 1 },
    decide (vm.sound_timer > 0), ?_, ?_, ?_, ?_, ?_⟩
  · rw [chip8_cycle_alu_eq vm keys vtick rnd x y 6 (by omega) (by omega) (by omega) h6,
      alu_shr_falls_through _ x y hx hy]
    simp only [alu_case7, upd_other _ _ _ _ hxF, upd_other _ _ _ _ hyF]
    exact tick_timers_eq _
  · rw [chip8_cycle_alu_eq _ keys vtick rnd x y 7 (by omega) (by omega) (by omega) h7,
      alu_rsub _ x y (by omega) (by omega)]
    simp only [alu_case7, upd_other _ _ _ _ hxF, upd_other _ _ _ _ hyF]
    exact tick_timers_eq _
  · rfl
  · simp only [upd_same, wrap8]
    omega
  · simp only [upd_other _ _ _ _ (Ne.symm hxF), upd_same]

/-- Witness of C32: the fixture's `8E06` with V0 = 1 and VE = 0, next to the same
machine holding `8E07`. -/
theorem chip8_cycle_shr_is_rsub_witness :
    (0xE < 15 ∧ 0 < 15 ∧ fetch shr_input = some (instr 8 0xE 0 6) ∧
      fetch { shr_input with ram := rsub_ram } = some (instr 8 0xE 0 7)) ∧
    ∃ vm1 snd,
      chip8_cycle shr_input 0 0 0 = .ok vm1 snd ∧
      chip8_cycle { shr_input with ram := rsub_ram } 0 0 0
        = .ok { vm1 with ram := rsub_ram } snd ∧
      vm1.ram = shr_input.ram ∧
      (vm1.V 0xE : Int) = ((shr_input.V 0 : Int) - (shr_input.V 0xE : Int)) % 256 ∧
      vm1.V 0xF = (if shr_input.V 0 > shr_input.V 0xE then 1 else 0) :=
  ⟨⟨by decide, by decide, by decide, by decide⟩,
   chip8_cycle_shr_is_rsub shr_input rsub_ram 0 0 0 0xE 0 (by decide) (by decide)
     (by decide) (by decide)⟩

/-- The `0x8000` family does not write the timers. -/
theorem alu_brk_timers (vm vm2 : chip8_vm) (op x y : Nat)
    (h : alu vm op x y = .brk vm2) :
    vm2.delay_timer = vm.delay_timer ∧ vm2.sound_timer = vm.sound_timer := by
  unfold alu at h
  split at h
  all_goals try simp only [alu_case7] at h
  all_goals first
    | (injection h with h; subst h; exact ⟨rfl, rfl⟩)
    | cases h

/-- No case of the `switch` writes a timer. -/
theorem exec_brk_timers (vm vm2 : chip8_vm) (op x y rnd : Nat)
    (h : exec vm op x y rnd = .brk vm2) :
    vm2.delay_timer = vm.delay_timer ∧ vm2.sound_timer = vm.sound_timer := by
  unfold exec at h
  split at h
  all_goals try dsimp only at h
  all_goals repeat' split at h
  all_goals first
    | exact alu_brk_timers _ _ _ _ _ h
    | (injection h with h; subst h; exact ⟨rfl, rfl⟩)
    | cases h

/-- A step that returned `true` left the `switch` through `break` and ended with the
timer statements. -/
theorem chip8_cycle_ok_tick (vm vm1 : chip8_vm) (keys vtick rnd : Nat) (snd : Bool)
    (h : chip8_cycle vm keys vtick rnd = .ok vm1 snd) :
    ∃ op vm2,
      exec { vm with pc := u16 (vm.pc + 2) } op ((op &&& 0x0F00) >>> 8)
        ((op &&& 0x00F0) >>> 4) rnd = .brk vm2 ∧
      tick_timers vm2 = .ok vm1 snd := by
  unfold chip8_cycle at h
  split at h
  · cases h
  · rename_i op hop
    dsimp only at h
    split at h
    · rename_i vm2 he
      exact ⟨op, vm2, he, h⟩
    · cases h
    · cases h

/-- With both timers at 0, a step that returns leaves both timers at 0, and when it
returns `true` it reports the sound flag as `false`. -/
theorem chip8_cycle_timers_zero (vm : chip8_vm) (keys vtick rnd : Nat)
    (hd : vm.delay_timer = 0) (hs : vm.sound_timer = 0) :
    (∀ s, (chip8_cycle vm keys vtick rnd).machine = some s →
      s.delay_timer = 0 ∧ s.sound_timer = 0) ∧
    (∀ vm1 snd, chip8_cycle vm keys vtick rnd = .ok vm1 snd → snd = false) := by
  have key : ∀ vm1 snd, chip8_cycle vm keys vtick rnd = .ok vm1 snd →
      vm1.delay_timer = 0 ∧ vm1.sound_timer = 0 ∧ snd = false := by
    intro vm1 snd h
    obtain ⟨op, vm2, he, ht⟩ := chip8_cycle_ok_tick vm vm1 keys vtick rnd snd h
    obtain ⟨hd2, hs2⟩ := exec_brk_timers _ _ _ _ _ _ he
    have hd3 : vm2.delay_timer = 0 := by rw [hd2]; exact hd
    have hs3 : vm2.sound_timer = 0 := by rw [hs2]; exact hs
    rw [tick_timers_eq] at ht
    injection ht with h1 h2
    subst h1
    subst h2
    refine ⟨?_, ?_, ?_⟩
    · show vm2.delay_timer - 1 = 0
      omega
    · show vm2.sound_timer - 1 = 0
      omega
    · rw [hs3]
      rfl
  constructor
  · intro s hm
    cases hc : chip8_cycle vm keys vtick rnd with
    | ok vm1 snd =>
      rw [hc] at hm
      injection hm with hm
      subst hm
      exact ⟨(key _ _ hc).1, (key _ _ hc).2.1⟩
    | fail vm1 =>
      rw [hc] at hm
      injection hm with hm
      subst hm
      obtain ⟨-, -, -, -, -, h6, h7, -⟩ := chip8_cycle_fail_atomic vm _ keys vtick rnd hc
      exact ⟨h6.trans hd, h7.trans hs⟩
    | out_of_bounds =>
      rw [hc] at hm
      cases hm
  · intro vm1 snd h
    exact (key vm1 snd h).2.2

/-- With both timers at 0, every call that a host can make leaves both at 0. -/
theorem perform_timers_zero (vm s : chip8_vm) (a : Action)
    (hd : vm.delay_timer = 0) (hs : vm.sound_timer = 0) (h : perform vm a = some s) :
    s.delay_timer = 0 ∧ s.sound_timer = 0 := by
  cases a with
  | cycle keys vtick rnd =>
    exact (chip8_cycle_timers_zero vm keys vtick rnd hd hs).1 s h
  | get_pc => injection h with h; subst h; exact ⟨hd, hs⟩
  | set_pc new_pc => injection h with h; subst h; exact ⟨hd, hs⟩
  | get_i => injection h with h; subst h; exact ⟨hd, hs⟩
  | set_i new_i => injection h with h; subst h; exact ⟨hd, hs⟩
  | get_vr index => injection h with h; subst h; exact ⟨hd, hs⟩
  | set_vr index new_val =>
    injection h with h
    subst h
    unfold chip8_set_vr
    split <;> exact ⟨hd, hs⟩
  | get_ram address => injection h with h; subst h; exact ⟨hd, hs⟩
  | set_ram address new_val =>
    injection h with h
    subst h
    unfold chip8_set_ram
    split <;> exact ⟨hd, hs⟩

/-- With both timers at 0, every sequence of calls leaves both at 0. -/
theorem perform_all_timers_zero (acts : List Action) (vm s : chip8_vm)
    (hd : vm.delay_timer = 0) (hs : vm.sound_timer = 0)
    (h : perform_all vm acts = some s) :
    s.delay_timer = 0 ∧ s.sound_timer = 0 := by
  induction acts generalizing vm with
  | nil =>
    injection h with h
    subst h
    exact ⟨hd, hs⟩
  | cons a rest ih =>
    unfold perform_all at h
    split at h
    · rename_i vm1 hp
      obtain ⟨hd1, hs1⟩ := perform_timers_zero vm vm1 a hd hs hp
      exact ih vm1 hd1 hs1 h
    · cases h

/-- From the machine left by a successful `chip8_load`, after any sequence of
`chip8_cycle` calls with every access inside its array (whatever the instructions, key
masks and ticks, and whether they return `true` or `false`) and debug-accessor calls,
the delay timer and the sound timer are both 0, and every such step from there that
returns `true` reports the sound flag as `false`. -/
theorem timers_never_armed (vm0 : chip8_vm) (p : List Nat) (acts : List Action)
    (s : chip8_vm)
    (hload : (chip8_load vm0 p).1 = true)
    (hrun : perform_all (chip8_load vm0 p).2 acts = some s) :
    s.delay_timer = 0 ∧ s.sound_timer = 0 ∧
    (∀ keys vtick rnd vm1 snd, chip8_cycle s keys vtick rnd = .ok vm1 snd →
      snd = false) := by
  have hlen : p.length ≤ 3584 := by
    have h := (chip8_load_returns vm0 p).1
    rw [hload] at h
    exact of_decide_eq_true h.symm
  obtain ⟨-, -, -, hd0, hs0⟩ := chip8_load_resets vm0 p hlen
  obtain ⟨hd, hs⟩ := perform_all_timers_zero acts _ s hd0 hs0 hrun
  exact ⟨hd, hs, fun keys vtick rnd vm1 snd h =>
    (chip8_cycle_timers_zero s keys vtick rnd hd hs).2 vm1 snd h⟩

/-- The lemma `timers_never_armed` after `chip8_load` of `jump_program` into the zero
machine, a step with key mask 5 and tick 9, a `chip8_set_pc(0x200)` and a second
step. -/
theorem timers_never_armed_witness :
    ((chip8_load zero_vm jump_program).1 = true ∧
      perform_all (chip8_load zero_vm jump_program).2
        [.cycle 5 9 3, .set_pc 0x200, .cycle 0 0 0]
        = some { (chip8_load zero_vm jump_program).2 with pc := 0x204 }) ∧
    ({ (chip8_load zero_vm jump_program).2 with pc := 0x204 }.delay_timer = 0 ∧
     { (chip8_load zero_vm jump_program).2 with pc := 0x204 }.sound_timer = 0 ∧
     (∀ keys vtick rnd vm1 snd,
       chip8_cycle { (chip8_load zero_vm jump_program).2 with pc := 0x204 } keys vtick rnd
         = .ok vm1 snd → snd = false)) :=
  ⟨⟨by decide, rfl⟩,
   timers_never_armed zero_vm jump_program [.cycle 5 9 3, .set_pc 0x200, .cycle 0 0 0] _
     (by decide) rfl⟩

/-! ## Lemmas: the step with reads outside the arrays let through -/

/-- A `return false` inside the `switch` leaves the machine as it was on entry. -/
theorem exec_reads_ret_false (junk : Nat → Nat) (vm vm2 : chip8_vm) (op x y rnd : Nat)
    (h : exec_reads junk vm op x y rnd = .ret_false vm2) : vm2 = vm := by
  unfold exec_reads at h
  split at h
  all_goals try dsimp only at h
  all_goals repeat' split at h
  all_goals first
    | exact alu_ret_false _ _ _ _ _ h
    | (injection h with h; exact h.symm)
    | cases h

/-- No case of the `switch` writes a timer, whatever the reads outside the arrays
find. -/
theorem exec_reads_brk_timers (junk : Nat → Nat) (vm vm2 : chip8_vm) (op x y rnd : Nat)
    (h : exec_reads junk vm op x y rnd = .brk vm2) :
    vm2.delay_timer = vm.delay_timer ∧ vm2.sound_timer = vm.sound_timer := by
  unfold exec_reads at h
  split at h
  all_goals try dsimp only at h
  all_goals repeat' split at h
  all_goals first
    | exact alu_brk_timers _ _ _ _ _ h
    | (injection h with h; subst h; exact ⟨rfl, rfl⟩)
    | cases h

/-- The `switch` keeps the stack pointer within 0..16, whatever the reads outside the
arrays find. -/
theorem exec_reads_brk_sp (junk : Nat → Nat) (vm vm2 : chip8_vm) (op x y rnd : Nat)
    (hsp : vm.sp ≤ 16) (h : exec_reads junk vm op x y rnd = .brk vm2) : vm2.sp ≤ 16 := by
  unfold exec_reads at h
  split at h
  all_goals try dsimp only at h
  all_goals repeat' split at h
  all_goals first
    | exact (alu_brk_frame _ _ _ _ _ h).1 ▸ hsp
    | (injection h with h; subst h; first
        | exact hsp
        | (simp only [STACK_SLOTS] at *; omega))
    | cases h

/-- The program counter that each case of the `switch` leaves. -/
theorem exec_reads_brk_pc (junk : Nat → Nat) (vm vm2 : chip8_vm) (op x y rnd : Nat)
    (h : exec_reads junk vm op x y rnd = .brk vm2) :
    vm2.pc = (match op &&& 0xF000 with
      | 0x0000 =>
        if vm.sp - 1 < STACK_SLOTS then vm.stack (vm.sp - 1) else u16 (junk (vm.sp - 1))
      | 0x1000 => op &&& 0x0FFF
      | 0x2000 => op &&& 0x0FFF
      | 0x3000 => if vm.V x = op &&& 0x00FF then u16 (vm.pc + 2) else vm.pc
      | 0x4000 => if vm.V x ≠ op &&& 0x00FF then u16 (vm.pc + 2) else vm.pc
      | 0x5000 => if vm.V x = vm.V y then u16 (vm.pc + 2) else vm.pc
      | 0x9000 => if vm.V x ≠ vm.V y then u16 (vm.pc + 2) else vm.pc
      | 0xE000 =>
        if (op &&& 0x00FF = 0x9E ∧
              (if vm.V x < 16 then vm.keys (vm.V x) else u16 (junk (vm.V x))) ≠ 0) ∨
            (op &&& 0x00FF = 0xA1 ∧
              (if vm.V x < 16 then vm.keys (vm.V x) else u16 (junk (vm.V x))) = 0)
        then u16 (vm.pc + 2) else vm.pc
      | _ => vm.pc) := by
  unfold exec_reads at h
  split at h
  all_goals try dsimp only at h
  all_goals try (rename_i a heq; rw [heq])
  all_goals try simp only []
  all_goals repeat' split at h
  all_goals first
    | (cases h; done)
    | exact (alu_brk_frame _ _ _ _ _ h).2.1
    | (injection h with h; subst h; simp [*]; done)
    | (injection h with h; subst h; simp_all [STACK_SLOTS])

/-- A step that returned `true` left the `switch` through `break` and ended with the
timer statements. -/
theorem chip8_cycle_reads_ok_inv (junk : Nat → Nat) (vm vm1 : chip8_vm)
    (keys vtick rnd : Nat) (snd : Bool)
    (h : chip8_cycle_reads junk vm keys vtick rnd = .ok vm1 snd) :
    ∃ vm2,
      exec_reads junk { vm with pc := u16 (vm.pc + 2) } (fetch_reads junk vm)
        ((fetch_reads junk vm &&& 0x0F00) >>> 8)
        ((fetch_reads junk vm &&& 0x00F0) >>> 4) rnd = .brk vm2 ∧
      tick_timers vm2 = .ok vm1 snd := by
  unfold chip8_cycle_reads at h
  dsimp only at h
  split at h
  · rename_i vm2 he
    exact ⟨vm2, he, h⟩
  · cases h
  · cases h

/-- A step that returned `false` left the `switch` through `return false`. -/
theorem chip8_cycle_reads_fail_inv (junk : Nat → Nat) (vm vm1 : chip8_vm)
    (keys vtick rnd : Nat)
    (h : chip8_cycle_reads junk vm keys vtick rnd = .fail vm1) :
    vm1 = { vm with pc := u16 (vm.pc + 2) } := by
  unfold chip8_cycle_reads at h
  dsimp only at h
  split at h
  · rename_i vm2 he
    rw [tick_timers_eq] at h
    cases h
  · rename_i vm2 he
    injection h with h
    subst h
    exact exec_reads_ret_false _ _ _ _ _ _ _ he
  · cases h

/-- The word fetched inside `ram` is the word that `fetch` gives. -/
theorem fetch_reads_of_fetch (junk : Nat → Nat) (vm : chip8_vm) (op : Nat)
    (h : fetch vm = some op) : fetch_reads junk vm = op := by
  have hb := fetch_bound vm op h
  have hb0 : vm.pc < RAM_SIZE := by omega
  unfold fetch at h
  rw [if_pos hb] at h
  injection h with h
  unfold fetch_reads read_ram
  rw [if_pos hb, if_pos hb0]
  exact h

/-- The loop of `case 0x0055` stops exactly when one of its stores lies outside
`ram`. -/
theorem store_loop_none (V : Nat → Nat) (I : Nat) (c i : Nat) (ram : Nat → Nat) :
    store_loop V I (c + 1) i ram = none ↔ RAM_SIZE ≤ I + i + c := by
  induction c generalizing i ram with
  | zero =>
    by_cases hb : I + i < RAM_SIZE
    · simp only [store_loop, if_pos hb]
      constructor
      · intro h; cases h
      · intro h; omega
    · simp only [store_loop, if_neg hb]
      constructor
      · intro _; omega
      · intro _; trivial
  | succ c ih =>
    by_cases hb : I + i < RAM_SIZE
    · rw [store_loop, if_pos hb, ih]
      omega
    · rw [store_loop, if_neg hb]
      constructor
      · intro _; omega
      · intro _; trivial

/-- The `0x8000` family accesses no array outside its bounds. -/
theorem alu_in_bounds (vm : chip8_vm) (op x y : Nat) :
    alu vm op x y ≠ .out_of_bounds := by
  intro h
  unfold alu at h
  split at h
  all_goals try simp only [alu_case7] at h
  all_goals cases h

/-- With its reads let through, the `switch` ends in `out_of_bounds` exactly on a
block store `Fx55` whose last store, at `I + x`, lies outside `ram`. -/
theorem exec_reads_out_of_bounds (junk : Nat → Nat) (vm : chip8_vm) (op x y rnd : Nat) :
    exec_reads junk vm op x y rnd = .out_of_bounds ↔
      (op &&& 0xF000 = 0xF000 ∧ op &&& 0x00FF = 0x0055 ∧ RAM_SIZE ≤ vm.I + x) := by
  constructor
  · intro h
    unfold exec_reads at h
    split at h
    all_goals try dsimp only at h
    all_goals repeat' split at h
    all_goals first
      | (cases h; done)
      | exact absurd h (alu_in_bounds _ _ _ _)
      | (refine ⟨by assumption, by assumption, ?_⟩
         have hn := (store_loop_none _ _ _ _ _).mp (by assumption)
         omega)
  · rintro ⟨h1, h2, h3⟩
    have hn : store_loop vm.V vm.I (x + 1) 0 vm.ram = none :=
      (store_loop_none _ _ _ _ _).mpr (by omega)
    unfold exec_reads
    rw [h1]
    simp only [h2, hn]

/-- With its reads let through, a step returns, with `true` or `false`, unless it is
a block store `Fx55` whose last store, at `I + x`, lies outside `ram`. -/
theorem chip8_cycle_reads_out_of_bounds (junk : Nat → Nat) (vm : chip8_vm)
    (keys vtick rnd : Nat) :
    chip8_cycle_reads junk vm keys vtick rnd = .out_of_bounds ↔
      (fetch_reads junk vm &&& 0xF000 = 0xF000 ∧ fetch_reads junk vm &&& 0x00FF = 0x0055 ∧
        RAM_SIZE ≤ vm.I + ((fetch_reads junk vm &&& 0x0F00) >>> 8)) := by
  rw [← exec_reads_out_of_bounds junk { vm with pc := u16 (vm.pc + 2) } (fetch_reads junk vm)
    ((fetch_reads junk vm &&& 0x0F00) >>> 8) ((fetch_reads junk vm &&& 0x00F0) >>> 4) rnd]
  unfold chip8_cycle_reads
  dsimp only
  split
  · rename_i vm2 he
    rw [tick_timers_eq, he]
    constructor <;> intro h <;> cases h
  · rename_i vm2 he
    rw [he]
    constructor <;> intro h <;> cases h
  · rename_i he
    rw [he]
    exact ⟨fun _ => rfl, fun _ => rfl⟩

/-- Inside `ram` the loop of `case 0x0065` reads what `load_loop` reads. -/
theorem load_loop_reads_eq (junk : Nat → Nat) (vm : chip8_vm) (c i : Nat)
    (V V1 : Nat → Nat) (h : load_loop vm.ram vm.I c i V = some V1) :
    load_loop_reads junk vm c i V = V1 := by
  induction c generalizing i V with
  | zero =>
    simp only [load_loop, Option.some.injEq] at h
    subst h
    rfl
  | succ c ih =>
    unfold load_loop at h
    by_cases hb : vm.I + i < RAM_SIZE
    · rw [if_pos hb] at h
      unfold load_loop_reads
      unfold read_ram
      rw [if_pos hb]
      exact ih _ _ h
    · rw [if_neg hb] at h
      cases h

/-- Where the `switch` of `chip8_cycle` stays inside the arrays, letting the reads
through changes nothing. -/
theorem exec_reads_eq_exec (junk : Nat → Nat) (vm : chip8_vm) (op x y rnd : Nat)
    (h : exec vm op x y rnd ≠ .out_of_bounds) :
    exec_reads junk vm op x y rnd = exec vm op x y rnd := by
  unfold exec at h ⊢
  unfold exec_reads
  split at h
  all_goals try (rename_i a heq; simp only [heq])
  all_goals try split at h
  all_goals try (rename_i a heq; simp only [heq])
  all_goals try split at h
  all_goals try split at h
  all_goals first
    | rfl
    | exact absurd rfl h
    | (simp [*]; done)
    | (rename_i V1 hl; simp [hl, load_loop_reads_eq junk _ _ _ _ _ hl])

/-- Where `chip8_cycle` returns, `chip8_cycle_reads` returns the same, whatever `junk`
is. -/
theorem chip8_cycle_reads_eq (junk : Nat → Nat) (vm : chip8_vm) (keys vtick rnd : Nat)
    (h : chip8_cycle vm keys vtick rnd ≠ .out_of_bounds) :
    chip8_cycle_reads junk vm keys vtick rnd = chip8_cycle vm keys vtick rnd := by
  unfold chip8_cycle at h ⊢
  unfold chip8_cycle_reads
  split at h
  · exact absurd rfl h
  · rename_i op hop
    dsimp only at h ⊢
    have he : exec { vm with pc := u16 (vm.pc + 2) } op ((op &&& 0x0F00) >>> 8)
        ((op &&& 0x00F0) >>> 4) rnd ≠ .out_of_bounds := by
      intro hn
      rw [hn] at h
      exact h rfl
    rw [fetch_reads_of_fetch junk vm op hop, exec_reads_eq_exec junk _ _ _ _ _ he]

/-- Inside `ram` the loop of `case 0x0055` resolved by the layout stores what
`store_loop` stores. -/
theorem store_loop_layout_eq (c i : Nat) (vm : chip8_vm) (ram1 : Nat → Nat)
    (h : store_loop vm.V vm.I c i vm.ram = some ram1) :
    store_loop_layout c i vm = some { vm with ram := ram1 } := by
  induction c generalizing i vm with
  | zero =>
    simp only [store_loop, Option.some.injEq] at h
    subst h
    rfl
  | succ c ih =>
    unfold store_loop at h
    by_cases hb : vm.I + i < RAM_SIZE
    · rw [if_pos hb] at h
      have hc : vm.I + i < CELL_V := hb
      have hp : poke vm (vm.I + i) (vm.V i)
          = some { vm with ram := upd vm.ram (vm.I + i) (vm.V i) } := by
        unfold poke
        simp only [if_pos hc]
      unfold store_loop_layout
      rw [hp]
      exact ih (i + 1) { vm with ram := upd vm.ram (vm.I + i) (vm.V i) } h
    · rw [if_neg hb] at h
      cases h

/-- Where `chip8_cycle` returns, `chip8_cycle_layout` returns the same. -/
theorem chip8_cycle_layout_eq (vm : chip8_vm) (keys vtick rnd : Nat)
    (h : chip8_cycle vm keys vtick rnd ≠ .out_of_bounds) :
    chip8_cycle_layout vm keys vtick rnd = chip8_cycle vm keys vtick rnd := by
  unfold chip8_cycle_layout
  cases hf : fetch vm with
  | none => exact absurd (by simp only [chip8_cycle, hf]) h
  | some op =>
    dsimp only
    by_cases hc : op &&& 0xF000 = 0xF000 ∧ op &&& 0x00FF = 0x0055
    · rw [if_pos hc]
      unfold chip8_cycle at h ⊢
      rw [hf] at h ⊢
      dsimp only at h ⊢
      unfold exec at h ⊢
      rw [hc.1] at h ⊢
      simp only [hc.2] at h ⊢
      cases hs : store_loop vm.V vm.I ((op &&& 0x0F00) >>> 8 + 1) 0 vm.ram with
      | none =>
        rw [hs] at h
        exact absurd rfl h
      | some ram1 =>
        rw [store_loop_layout_eq _ _ { vm with pc := u16 (vm.pc + 2) } ram1 hs]
    · rw [if_neg hc]

/-! ## Theorems: stores outside `ram` -/

/-- With its reads let through, a step that returns, from a stack pointer within
0..16, leaves the stack pointer within 0..16. -/
theorem sp_invariant_reads (junk : Nat → Nat) (vm s : chip8_vm) (keys vtick rnd : Nat)
    (hsp : vm.sp ≤ 16)
    (h : (chip8_cycle_reads junk vm keys vtick rnd).machine = some s) : s.sp ≤ 16 := by
  cases hc : chip8_cycle_reads junk vm keys vtick rnd with
  | ok vm1 snd =>
    rw [hc] at h
    injection h with h
    subst h
    obtain ⟨vm2, he, ht⟩ := chip8_cycle_reads_ok_inv junk vm _ keys vtick rnd snd hc
    rw [tick_timers_eq] at ht
    injection ht with h1 h2
    subst h1
    exact exec_reads_brk_sp junk { vm with pc := u16 (vm.pc + 2) } vm2 _ _ _ _ hsp he
  | fail vm1 =>
    rw [hc] at h
    injection h with h
    subst h
    rw [chip8_cycle_reads_fail_inv junk vm _ keys vtick rnd hc]
    exact hsp
  | out_of_bounds =>
    rw [hc] at h
    cases h

/-- C29, evaluated at a failing input: after `chip8_load` of `F055`,
`chip8_set_vr(0, 200)` and `chip8_set_i(0x102C)` the stack pointer is 0 and the store
of `F055` goes to `ram[I + 0]` with `I + 0 = 0x102C`, outside `ram`, where the struct
holds `sp`; `chip8_cycle` stops there, and with the store resolved by the layout the
step returns `true` and leaves the stack pointer at 200. -/
theorem chip8_cycle_store_overwrites_sp :
    fetch smash_sp_input = some (instr_imm 0xF 0 0x55) ∧
    smash_sp_input.sp = 0 ∧
    RAM_SIZE ≤ smash_sp_input.I + 0 ∧ smash_sp_input.I + 0 = CELL_SP ∧
    (chip8_cycle smash_sp_input 0 0 0).returned = none ∧
    (chip8_cycle_layout smash_sp_input 0 0 0).returned = some true ∧
    (chip8_cycle_layout smash_sp_input 0 0 0).state.map (fun s => s.sp) = some 200 := by
  decide

/-- C33, evaluated at a failing input: after `chip8_load` of `F055`,
`chip8_set_vr(0, 9)` and `chip8_set_i(0x101B)` both timers are 0 and the store of
`F055` goes to `ram[I + 0]` with `I + 0 = 0x101B`, outside `ram`, where the struct
holds `sound_timer`; `chip8_cycle` stops there, also with its reads let through, and
with the store resolved by the layout the step returns `true`, reports the sound flag
as `true` and leaves the sound timer at 8. -/
theorem timers_armed_by_store :
    (chip8_load zero_vm [0xF0, 0x55]).1 = true ∧
    fetch arm_sound_input = some (instr_imm 0xF 0 0x55) ∧
    arm_sound_input.delay_timer = 0 ∧ arm_sound_input.sound_timer = 0 ∧
    RAM_SIZE ≤ arm_sound_input.I + 0 ∧ arm_sound_input.I + 0 = CELL_SOUND ∧
    (chip8_cycle arm_sound_input 0 0 0).returned = none ∧
    (perform_all_reads (chip8_load zero_vm [0xF0, 0x55]).2
      [(fun _ => 0, .set_vr 0 9), (fun _ => 0, .set_i 0x101B),
       (fun _ => 0, .cycle 0 0 0)]).isNone = true ∧
    (chip8_cycle_layout arm_sound_input 0 0 0).returned = some true ∧
    (chip8_cycle_layout arm_sound_input 0 0 0).sound = some true ∧
    (chip8_cycle_layout arm_sound_input 0 0 0).state.map (fun s => s.sound_timer)
      = some 8 := by
  decide

/-- With both timers at 0 and the reads let through, a step that returns leaves both
timers at 0, and when it returns `true` it reports the sound flag as `false`. -/
theorem chip8_cycle_reads_timers_zero (junk : Nat → Nat) (vm : chip8_vm)
    (keys vtick rnd : Nat) (hd : vm.delay_timer = 0) (hs : vm.sound_timer = 0) :
    (∀ s, (chip8_cycle_reads junk vm keys vtick rnd).machine = some s →
      s.delay_timer = 0 ∧ s.sound_timer = 0) ∧
    (∀ vm1 snd, chip8_cycle_reads junk vm keys vtick rnd = .ok vm1 snd → snd = false) := by
  have key : ∀ vm1 snd, chip8_cycle_reads junk vm keys vtick rnd = .ok vm1 snd →
      vm1.delay_timer = 0 ∧ vm1.sound_timer = 0 ∧ snd = false := by
    intro vm1 snd h
    obtain ⟨vm2, he, ht⟩ := chip8_cycle_reads_ok_inv junk vm vm1 keys vtick rnd snd h
    obtain ⟨hd2, hs2⟩ := exec_reads_brk_timers _ _ _ _ _ _ _ he
    have hd3 : vm2.delay_timer = 0 := by rw [hd2]; exact hd
    have hs3 : vm2.sound_timer = 0 := by rw [hs2]; exact hs
    rw [tick_timers_eq] at ht
    injection ht with h1 h2
    subst h1
    subst h2
    refine ⟨?_, ?_, ?_⟩
    · show vm2.delay_timer - 1 = 0
      omega
    · show vm2.sound_timer - 1 = 0
      omega
    · rw [hs3]
      rfl
  constructor
  · intro s hm
    cases hc : chip8_cycle_reads junk vm keys vtick rnd with
    | ok vm1 snd =>
      rw [hc] at hm
      injection hm with hm
      subst hm
      exact ⟨(key _ _ hc).1, (key _ _ hc).2.1⟩
    | fail vm1 =>
      rw [hc] at hm
      injection hm with hm
      subst hm
      rw [chip8_cycle_reads_fail_inv junk vm _ keys vtick rnd hc]
      exact ⟨hd, hs⟩
    | out_of_bounds =>
      rw [hc] at hm
      cases hm
  · intro vm1 snd h
    exact (key vm1 snd h).2.2

/-- With both timers at 0 and the reads let through, every call that a host can make
leaves both at 0. -/
theorem perform_reads_timers_zero (junk : Nat → Nat) (vm s : chip8_vm) (a : Action)
    (hd : vm.delay_timer = 0) (hs : vm.sound_timer = 0)
    (h : perform_reads junk vm a = some s) :
    s.delay_timer = 0 ∧ s.sound_timer = 0 := by
  cases a with
  | cycle keys vtick rnd =>
    exact (chip8_cycle_reads_timers_zero junk vm keys vtick rnd hd hs).1 s h
  | get_pc => exact perform_timers_zero vm s _ hd hs (by unfold perform_reads at h; exact h)
  | set_pc new_pc => exact perform_timers_zero vm s _ hd hs (by unfold perform_reads at h; exact h)
  | get_i => exact perform_timers_zero vm s _ hd hs (by unfold perform_reads at h; exact h)
  | set_i new_i => exact perform_timers_zero vm s _ hd hs (by unfold perform_reads at h; exact h)
  | get_vr index => exact perform_timers_zero vm s _ hd hs (by unfold perform_reads at h; exact h)
  | set_vr index new_val => exact perform_timers_zero vm s _ hd hs (by unfold perform_reads at h; exact h)
  | get_ram address => exact perform_timers_zero vm s _ hd hs (by unfold perform_reads at h; exact h)
  | set_ram address new_val => exact perform_timers_zero vm s _ hd hs (by unfold perform_reads at h; exact h)

/-- With both timers at 0 and the reads let through, every sequence of calls leaves
both at 0. -/
theorem perform_all_reads_timers_zero (calls : List ((Nat → Nat) × Action))
    (vm s : chip8_vm) (hd : vm.delay_timer = 0) (hs : vm.sound_timer = 0)
    (h : perform_all_reads vm calls = some s) :
    s.delay_timer = 0 ∧ s.sound_timer = 0 := by
  induction calls generalizing vm with
  | nil =>
    simp only [perform_all_reads, Option.some.injEq] at h
    subst h
    exact ⟨hd, hs⟩
  | cons c rest ih =>
    obtain ⟨junk, a⟩ := c
    unfold perform_all_reads at h
    split at h
    · rename_i vm1 hp
      obtain ⟨hd1, hs1⟩ := perform_reads_timers_zero junk vm vm1 a hd hs hp
      exact ih vm1 hd1 hs1 h
    · cases h

/-- A sequence of calls has a machine after it unless one of its steps is a block
store `Fx55` whose last store, at `I + x`, lies outside `ram`: every accessor call
returns, and so does every step that is not such a store. -/
theorem perform_reads_none (junk : Nat → Nat) (vm : chip8_vm) (a : Action) :
    perform_reads junk vm a = none ↔
      ∃ keys vtick rnd, a = .cycle keys vtick rnd ∧
        fetch_reads junk vm &&& 0xF000 = 0xF000 ∧ fetch_reads junk vm &&& 0x00FF = 0x0055 ∧
        RAM_SIZE ≤ vm.I + ((fetch_reads junk vm &&& 0x0F00) >>> 8) := by
  constructor
  · intro h
    cases a with
    | cycle keys vtick rnd =>
      refine ⟨keys, vtick, rnd, rfl, ?_⟩
      apply (chip8_cycle_reads_out_of_bounds junk vm keys vtick rnd).mp
      cases hc : chip8_cycle_reads junk vm keys vtick rnd with
      | ok vm1 snd =>
        simp only [perform_reads, hc, Outcome.machine] at h
        cases h
      | fail vm1 =>
        simp only [perform_reads, hc, Outcome.machine] at h
        cases h
      | out_of_bounds => rfl
    | get_pc => simp [perform_reads, perform] at h
    | set_pc new_pc => simp [perform_reads, perform] at h
    | get_i => simp [perform_reads, perform] at h
    | set_i new_i => simp [perform_reads, perform] at h
    | get_vr index => simp [perform_reads, perform] at h
    | set_vr index new_val => simp [perform_reads, perform] at h
    | get_ram address => simp [perform_reads, perform] at h
    | set_ram address new_val => simp [perform_reads, perform] at h
  · rintro ⟨keys, vtick, rnd, ha, hst⟩
    subst ha
    have hc := (chip8_cycle_reads_out_of_bounds junk vm keys vtick rnd).mpr hst
    simp only [perform_reads, hc, Outcome.machine]

/-! ## Theorems: the program counter after a step -/

/-- C30 as amended: from an even program counter below 4096, a step that returns
`true` and stores nothing outside `ram` (its reads outside the arrays let through)
leaves the program counter at the popped value after the return `00EE`, at `nnn`
after a jump `1nnn` or a call `2nnn`, at `pc + 4` after a skip that is taken and at
`pc + 2` after every other instruction; so the program counter is again below 4096
and even exactly when the popped value is, when `nnn` is even, when a taken skip
started at most at 0xFFA, and when any other instruction started at most at 0xFFC. -/
theorem chip8_cycle_pc_next (junk : Nat → Nat) (vm vm1 : chip8_vm)
    (keys vtick rnd op x y key popped : Nat) (snd : Bool)
    (hev : vm.pc % 2 = 0) (hlt : vm.pc < 4096)
    (hf : fetch vm = some op)
    (hx : x = (op &&& 0x0F00) >>> 8) (hy : y = (op &&& 0x00F0) >>> 4)
    (hkey : key = if vm.V x < 16 then vm.keys (vm.V x) else u16 (junk (vm.V x)))
    (hpop : popped =
      if vm.sp - 1 < STACK_SLOTS then vm.stack (vm.sp - 1) else u16 (junk (vm.sp - 1)))
    (hok : chip8_cycle_reads junk vm keys vtick rnd = .ok vm1 snd) :
    vm1.pc = (match op &&& 0xF000 with
      | 0x0000 => popped
      | 0x1000 => op &&& 0x0FFF
      | 0x2000 => op &&& 0x0FFF
      | 0x3000 => if vm.V x = op &&& 0x00FF then vm.pc + 4 else vm.pc + 2
      | 0x4000 => if vm.V x ≠ op &&& 0x00FF then vm.pc + 4 else vm.pc + 2
      | 0x5000 => if vm.V x = vm.V y then vm.pc + 4 else vm.pc + 2
      | 0x9000 => if vm.V x ≠ vm.V y then vm.pc + 4 else vm.pc + 2
      | 0xE000 =>
        if (op &&& 0x00FF = 0x9E ∧ key ≠ 0) ∨ (op &&& 0x00FF = 0xA1 ∧ key = 0)
        then vm.pc + 4 else vm.pc + 2
      | _ => vm.pc + 2) ∧
    ((vm1.pc < 4096 ∧ vm1.pc % 2 = 0) ↔
      (match op &&& 0xF000 with
      | 0x0000 => popped < 4096 ∧ popped % 2 = 0
      | 0x1000 => (op &&& 0x0FFF) % 2 = 0
      | 0x2000 => (op &&& 0x0FFF) % 2 = 0
      | 0x3000 => if vm.V x = op &&& 0x00FF then vm.pc ≤ 0xFFA else vm.pc ≤ 0xFFC
      | 0x4000 => if vm.V x ≠ op &&& 0x00FF then vm.pc ≤ 0xFFA else vm.pc ≤ 0xFFC
      | 0x5000 => if vm.V x = vm.V y then vm.pc ≤ 0xFFA else vm.pc ≤ 0xFFC
      | 0x9000 => if vm.V x ≠ vm.V y then vm.pc ≤ 0xFFA else vm.pc ≤ 0xFFC
      | 0xE000 =>
        if (op &&& 0x00FF = 0x9E ∧ key ≠ 0) ∨ (op &&& 0x00FF = 0xA1 ∧ key = 0)
        then vm.pc ≤ 0xFFA else vm.pc ≤ 0xFFC
      | _ => vm.pc ≤ 0xFFC)) := by
  obtain ⟨vm2, he, ht⟩ := chip8_cycle_reads_ok_inv junk vm vm1 keys vtick rnd snd hok
  rw [fetch_reads_of_fetch junk vm op hf] at he
  have hpc := exec_reads_brk_pc junk _ vm2 op _ _ rnd he
  rw [tick_timers_eq] at ht
  injection ht with h1 hsnd
  subst h1
  have hu1 : u16 (vm.pc + 2) = vm.pc + 2 := by
    simp only [u16]
    omega
  have hu2 : u16 (vm.pc + 2 + 2) = vm.pc + 4 := by
    simp only [u16]
    omega
  have hn : op &&& 0x0FFF < 4096 := by
    rw [field_nnn]
    omega
  have h4 : ∀ p : Nat, p % 2 = 0 → p < 4096 →
      ((p + 4 < 4096 ∧ (p + 4) % 2 = 0) ↔ p ≤ 0xFFA) := by
    intro p hp1 hp2
    omega
  have h2 : ∀ p : Nat, p % 2 = 0 → p < 4096 →
      ((p + 2 < 4096 ∧ (p + 2) % 2 = 0) ↔ p ≤ 0xFFC) := by
    intro p hp1 hp2
    omega
  simp only [hu1, hu2] at hpc
  subst hx hy hkey hpop
  show vm2.pc = _ ∧ ((vm2.pc < 4096 ∧ vm2.pc % 2 = 0) ↔ _)
  split at hpc
  all_goals refine ⟨hpc, ?_⟩
  all_goals first
    | (rw [hpc]; done)
    | (rw [hpc]; exact ⟨fun h => h.2, fun h => ⟨hn, h⟩⟩)
    | (rw [hpc]; exact h2 vm.pc hev hlt)
    | (rw [hpc]; split_ifs <;> first | exact h4 vm.pc hev hlt | exact h2 vm.pc hev hlt)

/-- Witness of amended C30: the fixture's `302A` with V0 = 0x2A at 0x200, a skip that
is taken and leaves the program counter at 0x204. -/
theorem chip8_cycle_pc_next_witness :
    (skip_input.pc % 2 = 0 ∧ skip_input.pc < 4096 ∧
      fetch skip_input = some (instr_imm 3 0 0x2A) ∧
      0 = (instr_imm 3 0 0x2A &&& 0x0F00) >>> 8 ∧ 2 = (instr_imm 3 0 0x2A &&& 0x00F0) >>> 4 ∧
      chip8_cycle_reads (fun _ => 0) skip_input 0 0 0
        = .ok { skip_input with pc := 0x204 } false) ∧
    ({ skip_input with pc := 0x204 }.pc
        = (if skip_input.V 0 = instr_imm 3 0 0x2A &&& 0x00FF then skip_input.pc + 4
           else skip_input.pc + 2) ∧
     (({ skip_input with pc := 0x204 }.pc < 4096 ∧
        { skip_input with pc := 0x204 }.pc % 2 = 0) ↔
      (if skip_input.V 0 = instr_imm 3 0 0x2A &&& 0x00FF then skip_input.pc ≤ 0xFFA
       else skip_input.pc ≤ 0xFFC))) :=
  ⟨⟨by decide, by decide, by decide, by decide, by decide, rfl⟩,
   chip8_cycle_pc_next (fun _ => 0) skip_input _ 0 0 0 (instr_imm 3 0 0x2A) 0 2 _ _ false
     (by decide) (by decide) (by decide) (by decide) (by decide) rfl rfl rfl⟩

/-- From the machine left by a successful `chip8_load`, after any sequence of steps
and accessor calls in which no block store `Fx55` stores outside `ram` (reads outside
the arrays let through), both timers are 0 and every step from there that returns
`true` reports the sound flag as `false`. -/
theorem timers_stay_zero_reads (vm0 : chip8_vm) (p : List Nat)
    (calls : List ((Nat → Nat) × Action)) (s : chip8_vm)
    (hload : (chip8_load vm0 p).1 = true)
    (hrun : perform_all_reads (chip8_load vm0 p).2 calls = some s) :
    s.delay_timer = 0 ∧ s.sound_timer = 0 ∧
    (∀ junk keys vtick rnd vm1 snd, chip8_cycle_reads junk s keys vtick rnd = .ok vm1 snd →
      snd = false) := by
  have hlen : p.length ≤ 3584 := by
    have h := (chip8_load_returns vm0 p).1
    rw [hload] at h
    exact of_decide_eq_true h.symm
  obtain ⟨-, -, -, hd0, hs0⟩ := chip8_load_resets vm0 p hlen
  obtain ⟨hd, hs⟩ := perform_all_reads_timers_zero calls _ s hd0 hs0 hrun
  exact ⟨hd, hs, fun junk keys vtick rnd vm1 snd h =>
    (chip8_cycle_reads_timers_zero junk s keys vtick rnd hd hs).2 vm1 snd h⟩

/-- A store resolved by the layout changes the program counter, the stack pointer and
the timers only when it goes to the cell of that field. -/
theorem poke_frame (vm vm1 : chip8_vm) (a v : Nat) (h : poke vm a v = some vm1) :
    (a ≠ CELL_PC → vm1.pc = vm.pc) ∧ (a ≠ CELL_SP → vm1.sp = vm.sp) ∧
    (a ≠ CELL_DELAY → vm1.delay_timer = vm.delay_timer) ∧
    (a ≠ CELL_SOUND → vm1.sound_timer = vm.sound_timer) := by
  unfold poke at h
  dsimp only at h
  by_cases c1 : a < CELL_V
  · rw [if_pos c1] at h
    injection h with h
    subst h
    exact ⟨fun _ => rfl, fun _ => rfl, fun _ => rfl, fun _ => rfl⟩
  rw [if_neg c1] at h
  by_cases c2 : a < CELL_STACK
  · rw [if_pos c2] at h
    injection h with h
    subst h
    exact ⟨fun _ => rfl, fun _ => rfl, fun _ => rfl, fun _ => rfl⟩
  rw [if_neg c2] at h
  by_cases c3 : a < CELL_PC
  · rw [if_pos c3] at h
    injection h with h
    subst h
    exact ⟨fun _ => rfl, fun _ => rfl, fun _ => rfl, fun _ => rfl⟩
  rw [if_neg c3] at h
  by_cases c4 : a = CELL_PC
  · rw [if_pos c4] at h
    injection h with h
    subst h
    refine ⟨fun h1 => ?_, fun h2 => ?_, fun h3 => ?_, fun h4 => ?_⟩ <;>
      first | rfl | contradiction
  rw [if_neg c4] at h
  by_cases c5 : a = CELL_I
  · rw [if_pos c5] at h
    injection h with h
    subst h
    exact ⟨fun _ => rfl, fun _ => rfl, fun _ => rfl, fun _ => rfl⟩
  rw [if_neg c5] at h
  by_cases c6 : a = CELL_DELAY
  · rw [if_pos c6] at h
    injection h with h
    subst h
    refine ⟨fun h1 => ?_, fun h2 => ?_, fun h3 => ?_, fun h4 => ?_⟩ <;>
      first | rfl | contradiction
  rw [if_neg c6] at h
  by_cases c7 : a = CELL_SOUND
  · rw [if_pos c7] at h
    injection h with h
    subst h
    refine ⟨fun h1 => ?_, fun h2 => ?_, fun h3 => ?_, fun h4 => ?_⟩ <;>
      first | rfl | contradiction
  rw [if_neg c7] at h
  by_cases c8 : a < CELL_SP
  · rw [if_pos c8] at h
    injection h with h
    subst h
    exact ⟨fun _ => rfl, fun _ => rfl, fun _ => rfl, fun _ => rfl⟩
  rw [if_neg c8] at h
  by_cases c9 : a = CELL_SP
  · rw [if_pos c9] at h
    injection h with h
    subst h
    refine ⟨fun h1 => ?_, fun h2 => ?_, fun h3 => ?_, fun h4 => ?_⟩ <;>
      first | rfl | contradiction
  rw [if_neg c9] at h
  by_cases c10 : a < CELL_END
  · rw [if_pos c10] at h
    injection h with h
    subst h
    exact ⟨fun _ => rfl, fun _ => rfl, fun _ => rfl, fun _ => rfl⟩
  rw [if_neg c10] at h
  cases h

end Chip8
